import Mathlib

/-!
Verification of the `blanche` batch image converter (`src/convert-images.js`)
against its natural-language specification.

Shallow embedding notes:
* The filesystem is an association list from full path strings to file
  contents; a file's content is abstracted to its pixel width plus its byte
  size (the only two attributes the program or the spec ever observe).
  `lookupFS` models `fs.existsSync` / `fs.statSync`; `setFS` models writing a
  file (overwrite-or-create), `readdirSync` models `fs.readdirSync`.
* The external `sharp` pipeline (resize + webp encode + toFile) is abstracted
  as a `Codec`: a deterministic function from source content, target width and
  quality to either an output content or an error message (`Except`).
  Claims about sharp's own behavior are stated as hypotheses on the codec.
* Console output is modelled structurally: each `console.log`/`console.error`
  call site corresponds to one `LogLine` constructor carrying the data that
  call interpolates.  The float formatting (`toFixed`) of displayed sizes is
  presentation only; `formatMB` renders the same quantity with rational
  rounding, and the savings percentage is carried exactly as a rational.
* `node`'s `path.join` normalizes `./images/blanche` to `images/blanche`;
  the embedding keeps the unnormalized concatenation, which is applied
  uniformly to every path the program touches, so no claim is affected.
* The JavaScript `processImages` has no `return` statement: its promise
  resolves to `undefined`.  The embedding returns the run's effects
  (`RunState`) paired with the function's *resolution value*, modelled as
  `Option ConversionResult` where `none` encodes `undefined`.
* `RunState.writes` is ghost instrumentation recording every file write the
  codec performs, used to state "which outputs were created by this run".
-/

/-- A file's content, abstracted to the attributes the program observes:
its pixel width (for the resize contract) and its byte size (for stat). -/
structure Content where
  width : Nat
  bytes : Nat
deriving DecidableEq

/-- The filesystem: an association list from path to content (first match
wins, as a real filesystem has at most one entry per path). -/
abbrev FS : Type := List (String × Content)

/-- First-match lookup; `none` models a missing file (`existsSync` false /
`statSync` throwing). -/
def lookupFS : FS → String → Option Content
  | [], _ => none
  | e :: t, p => if e.1 = p then some e.2 else lookupFS t p

/-- Writing a file: overwrite the first entry with that path, or append a
fresh entry. Models `sharp(...).toFile(outputPath)`'s filesystem effect. -/
def setFS : FS → String → Content → FS
  | [], p, v => [(p, v)]
  | e :: t, p, v => if e.1 = p then (p, v) :: t else e :: setFS t p v

/-- A real directory has no duplicate paths. -/
def NodupKeys (fs : FS) : Prop := (fs.map (fun e => e.1)).Nodup

/-- Drop `pre` from the front of `s` if it is a prefix, character by
character (used to model `readdirSync` name extraction). -/
def dropPreChars : List Char → List Char → Option (List Char)
  | [], s => some s
  | _ :: _, [] => none
  | p :: ps, c :: s => if c = p then dropPreChars ps s else none

/-- String version of `dropPreChars`. -/
def strDropPre (pre s : String) : Option String :=
  (dropPreChars pre.data s.data).map (fun l => ⟨l⟩)

/-- JavaScript `String.prototype.endsWith`. -/
def strEndsWith (s suf : String) : Bool :=
  suf.data.isSuffixOf s.data

/-- JavaScript `String.prototype.replace` with a *string* pattern: replace
only the first occurrence of `pat` by `rep`. -/
def listReplaceFirst : List Char → List Char → List Char → List Char
  | [], pat, rep => if pat.isEmpty then rep else []
  | c :: rest, pat, rep =>
    if pat.isPrefixOf (c :: rest) then rep ++ (c :: rest).drop pat.length
    else c :: listReplaceFirst rest pat rep

/-- `s.replace(pat, rep)` (first occurrence only), as in
`filename.replace('.png', '')` at src/convert-images.js:86. -/
def replaceFirst (s pat rep : String) : String :=
  ⟨listReplaceFirst s.data pat.data rep.data⟩

/-- `(bytes / 1024 / 1024).toFixed(2) + " MB"`, with the IEEE-double
`toFixed` abstracted to exact rational rounding (display only). -/
def formatMB (bytes : Nat) : String :=
  let centi := (bytes * 100 + 524288) / 1048576
  toString (centi / 100) ++ "." ++
    (if centi % 100 < 10 then "0" else "") ++ toString (centi % 100) ++ " MB"

/-- One target derivative: `{ suffix, width, quality }` rows of the
configuration table (src/convert-images.js:15-35). -/
structure SizeSpec where
  suffix : String
  width : Nat
  quality : Nat
deriving DecidableEq

/-- One tier of the configuration: a file list and a size-spec list. -/
structure TierCfg where
  files : List String
  sizes : List SizeSpec
deriving DecidableEq

/-- The whole hard-coded configuration table. -/
structure Config where
  large : TierCfg
  product : TierCfg
  review : TierCfg

/-- `const inputDir = './images/blanche'` (src/convert-images.js:7). -/
def inputDir : String := "./images/blanche"

/-- `path.join(dir, name)` (normalization of the constant `./` elided,
uniformly for every path in the program). -/
def pathJoin (dir name : String) : String := dir ++ "/" ++ name

/-- The hard-coded `config` table (src/convert-images.js:10-38). -/
def config : Config :=
  { large :=
      { files := ["004.png", "019.png", "023.png", "032.png", "037.png",
                  "069.png", "075.png"]
        sizes := [⟨"small", 640, 75⟩, ⟨"medium", 1024, 75⟩,
                  ⟨"large", 1920, 80⟩, ⟨"thumbnail", 400, 70⟩] }
    product :=
      { files := ["2.png", "3.png", "5.png"]
        sizes := [⟨"small", 640, 75⟩, ⟨"medium", 1024, 75⟩,
                  ⟨"large", 1920, 80⟩] }
    review :=
      { files := ["Review-0.png", "Review-1.png", "Review-2.png",
                  "Review-3.png"]
        sizes := [⟨"small", 640, 75⟩, ⟨"medium", 1024, 75⟩] } }

/-- Source path of a configured filename: `path.join(inputDir, filename)`. -/
def srcPath (filename : String) : String := pathJoin inputDir filename

/-- `filename.replace('.png', '') + '-' + size.suffix + '.webp'`
(src/convert-images.js:86-87). -/
def outputNameOf (filename : String) (size : SizeSpec) : String :=
  replaceFirst filename ".png" "" ++ "-" ++ size.suffix ++ ".webp"

/-- Full output path: `path.join(inputDir, outputName)`
(src/convert-images.js:88). -/
def outPath (filename : String) (size : SizeSpec) : String :=
  pathJoin inputDir (outputNameOf filename size)

/-- One structured log line per `console.log`/`console.error` call site. -/
inductive LogLine where
  /-- line 67: the start banner -/
  | start : LogLine
  /-- lines 73/102/131: per-tier header -/
  | tierHeader : String → LogLine
  /-- lines 78/107/136: `{filename} not found, skipping...` -/
  | skip : String → LogLine
  /-- lines 83/112/141: `{filename} ({originalSize})` -/
  | fileInfo : String → String → LogLine
  /-- lines 93/122/152: `✓ {outputName} ({newSize})` -/
  | okLine : String → String → LogLine
  /-- lines 96/125/154: `✗ Failed: {outputName}` -/
  | failLine : String → LogLine
  /-- line 51: `Error converting {inputPath}: {error.message}` -/
  | convertError : String → String → LogLine
  /-- lines 160-165: the completion summary with the two final counters -/
  | summary : Nat → Nat → LogLine
  /-- lines 175-177: total webp bytes, baseline bytes, savings percentage -/
  | sizeReport : Nat → Nat → ℚ → LogLine
  /-- line 182: `Fatal error: {error}` -/
  | fatalError : String → LogLine
deriving DecidableEq

/-- The external sharp pipeline, abstracted: source content, target width and
quality to output content or error message.  A Lean function, hence
deterministic. -/
def Codec : Type := Content → Nat → Nat → Except String Content

/-- Result of one `convertImage` call: the filesystem afterwards, the boolean
the function returns, the log lines it printed, and (ghost) the write it
performed, as `(outputPath, source content, written content)`. -/
structure CIOut where
  fs : FS
  ok : Bool
  log : List LogLine
  wr : List (String × Content × Content)

/-- `convertImage(inputPath, outputPath, width, quality)`
(src/convert-images.js:40-54): run the codec inside try/catch; on success
write the output and return `true`, on any error log the message and return
`false`.  A missing input makes the sharp pipeline itself fail. -/
def convertImage (codec : Codec) (fs : FS) (inputPath outputPath : String)
    (width quality : Nat) : CIOut :=
  match lookupFS fs inputPath with
  | none => ⟨fs, false, [LogLine.convertError inputPath "Input file is missing"], []⟩
  | some src =>
    match codec src width quality with
    | Except.ok out =>
        ⟨setFS fs outputPath out, true, [], [(outputPath, src, out)]⟩
    | Except.error msg =>
        ⟨fs, false, [LogLine.convertError inputPath msg], []⟩

/-- `getFileSize(filePath)` (src/convert-images.js:56-64): formatted size, or
the placeholder `'N/A'` when `statSync` throws. -/
def getFileSize (fs : FS) (filePath : String) : String :=
  match lookupFS fs filePath with
  | some c => formatMB c.bytes
  | none => "N/A"

/-- Ghost record of one performed write: which source it came from, where it
went, under which size-spec, and the source/output contents. -/
structure WriteRec where
  inputPath : String
  outputPath : String
  spec : SizeSpec
  src : Content
  out : Content
deriving DecidableEq

/-- The state threaded through the run: the filesystem, the two global
counters, the console log, and the ghost record of performed writes. -/
structure RunState where
  fs : FS
  totalConverted : Nat
  totalFailed : Nat
  log : List LogLine
  writes : List WriteRec

/-- The body of the inner `for (const size of ...)` loop
(src/convert-images.js:85-99): compute the output path, call `convertImage`,
and bump exactly one of the two counters. -/
def processSize (codec : Codec) (filename : String) (st : RunState)
    (size : SizeSpec) : RunState :=
  let inputPath := srcPath filename
  let outputPath := outPath filename size
  let r := convertImage codec st.fs inputPath outputPath size.width size.quality
  if r.ok then
    { fs := r.fs
      totalConverted := st.totalConverted + 1
      totalFailed := st.totalFailed
      log := st.log ++ r.log ++
        [LogLine.okLine (outputNameOf filename size) (getFileSize r.fs outputPath)]
      writes := st.writes ++ r.wr.map (fun w => ⟨inputPath, w.1, size, w.2.1, w.2.2⟩) }
  else
    { fs := r.fs
      totalConverted := st.totalConverted
      totalFailed := st.totalFailed + 1
      log := st.log ++ r.log ++ [LogLine.failLine (outputNameOf filename size)]
      writes := st.writes ++ r.wr.map (fun w => ⟨inputPath, w.1, size, w.2.1, w.2.2⟩) }

/-- The body of the `for (const filename of ...)` loop
(src/convert-images.js:74-100): skip (with a notice) when the source does not
exist, otherwise log its size and process every size-spec in order. -/
def processFile (codec : Codec) (sizes : List SizeSpec) (st : RunState)
    (filename : String) : RunState :=
  let inputPath := srcPath filename
  match lookupFS st.fs inputPath with
  | none => { st with log := st.log ++ [LogLine.skip filename] }
  | some _ =>
    let st1 := { st with
      log := st.log ++ [LogLine.fileInfo filename (getFileSize st.fs inputPath)] }
    sizes.foldl (processSize codec filename) st1

/-- One tier's block (the three copies at src/convert-images.js:73-158):
print the header, then fold the file loop. -/
def processTier (codec : Codec) (header : String) (tier : TierCfg)
    (st : RunState) : RunState :=
  tier.files.foldl (processFile codec tier.sizes)
    { st with log := st.log ++ [LogLine.tierHeader header] }

/-- `fs.readdirSync(dir)`: the names under `dir` in the filesystem. -/
def readdirSync (fs : FS) (dir : String) : List String :=
  fs.filterMap (fun e => strDropPre (dir ++ "/") e.1)

/-- `fs.statSync(p).size` in the summary loop (src/convert-images.js:171);
every queried name comes from `readdirSync`, so the lookup never misses. -/
def statBytesD (fs : FS) (p : String) : Nat :=
  match lookupFS fs p with
  | some c => c.bytes
  | none => 0

/-- The fixed `~153 MB` baseline of src/convert-images.js:176-177. -/
def baselineBytes : Nat := 153 * 1024 * 1024

/-- The final summary block (src/convert-images.js:160-177): print the two
counters, then sum the sizes of every `.webp` file currently in the input
directory and report it with the fixed baseline and the derived savings. -/
def summarize (st : RunState) : RunState :=
  let webpFiles := (readdirSync st.fs inputDir).filter (fun f => strEndsWith f ".webp")
  let totalWebpSize := webpFiles.foldl (fun acc f => acc + statBytesD st.fs (pathJoin inputDir f)) 0
  { st with log := st.log ++
      [LogLine.summary st.totalConverted st.totalFailed,
       LogLine.sizeReport totalWebpSize baselineBytes
         ((1 - (totalWebpSize : ℚ) / (baselineBytes : ℚ)) * 100)] }

/-- The state at the top of `processImages`: the given filesystem, zeroed
counters (src/convert-images.js:69-70), the start banner, no writes yet. -/
def initState (fs₀ : FS) : RunState :=
  ⟨fs₀, 0, 0, [LogLine.start], []⟩

/-- The three tier blocks of `processImages`, in table order. -/
def runCore (codec : Codec) (fs₀ : FS) : RunState :=
  let st1 := processTier codec "large" config.large (initState fs₀)
  let st2 := processTier codec "product" config.product st1
  processTier codec "review" config.review st2

/-- The spec's `ConversionResult` record. -/
structure ConversionResult where
  attempted : Nat
  succeeded : Nat
  failed : Nat
deriving DecidableEq

/-- `processImages()` (src/convert-images.js:66-178): the three tier blocks
then the summary.  The second component is the function's resolution value;
the JavaScript function has no `return` statement, so it resolves to
`undefined`, encoded as `none`. -/
def processImages (codec : Codec) (fs₀ : FS) : RunState × Option ConversionResult :=
  (summarize (runCore codec fs₀), none)

/-- The `.catch` handler wiring (src/convert-images.js:181-184): a resolved
run exits with status 0; a rejected run logs `Fatal error: ...` and exits 1.
Returns (exit status, extra log lines). -/
def catchHandler (r : Except String (RunState × Option ConversionResult)) :
    Nat × List LogLine :=
  match r with
  | Except.ok _ => (0, [])
  | Except.error e => (1, [LogLine.fatalError e])

/-- The embedded run is total, so the top level always resolves. -/
def mainRun (codec : Codec) (fs₀ : FS) :
    Except String (RunState × Option ConversionResult) :=
  Except.ok (processImages codec fs₀)

/-- The process exit status of one invocation of the script. -/
def mainExit (codec : Codec) (fs₀ : FS) : Nat × List LogLine :=
  catchHandler (mainRun codec fs₀)

/-! ## Derived, specification-side definitions -/

/-- All configured filenames, in traversal order. -/
def allFiles : List String :=
  config.large.files ++ config.product.files ++ config.review.files

/-- Every output path one tier can produce. -/
def tierOutPaths (t : TierCfg) : List String :=
  (t.files.map (fun f => t.sizes.map (outPath f))).flatten

/-- Every output path the whole run can produce. -/
def allOutputPaths : List String :=
  tierOutPaths config.large ++ tierOutPaths config.product ++ tierOutPaths config.review

/-- How many (file, size-spec) pairs of one tier have an existing source. -/
def tierAttempted (fs₀ : FS) (t : TierCfg) : Nat :=
  (t.files.map (fun f =>
    if (lookupFS fs₀ (srcPath f)).isSome then t.sizes.length else 0)).sum

/-- How many (file, size-spec) pairs of the whole table have an existing
source: the spec's "total attempted (file,size) pairs where the source
existed". -/
def attemptedPairs (fs₀ : FS) : Nat :=
  tierAttempted fs₀ config.large + tierAttempted fs₀ config.product +
    tierAttempted fs₀ config.review

/-- The byte contribution of one filesystem entry to the summary: its size
when it is a `.webp` file inside the input directory, nothing otherwise. -/
def webpEntryBytes (e : String × Content) : Option Nat :=
  match strDropPre (inputDir ++ "/") e.1 with
  | some n => if strEndsWith n ".webp" then some e.2.bytes else none
  | none => none

/-- Specification-side total: the sum of the byte sizes of every `.webp`
file present in the input directory. -/
def webpSizeSum (fs : FS) : Nat := (fs.filterMap webpEntryBytes).sum

/-- Replay a list of recorded writes against a filesystem. -/
def applyWrites (ws : List WriteRec) (fs : FS) : FS :=
  ws.foldl (fun a r => setFS a r.outputPath r.out) fs

/-! ## Association-list filesystem lemmas -/

theorem lookupFS_setFS (l : FS) (p q : String) (v : Content) :
    lookupFS (setFS l p v) q = if p = q then some v else lookupFS l q := by
  induction l with
  | nil => simp [setFS, lookupFS]
  | cons e t ih =>
    show lookupFS (if e.1 = p then (p, v) :: t else e :: setFS t p v) q = _
    by_cases he : e.1 = p
    · rw [if_pos he]
      show (if p = q then some v else lookupFS t q) = _
      by_cases h : p = q
      · rw [if_pos h, if_pos h]
      · rw [if_neg h, if_neg h]
        show _ = if e.1 = q then some e.2 else lookupFS t q
        rw [if_neg (fun hc => h (he ▸ hc))]
    · rw [if_neg he]
      show (if e.1 = q then some e.2 else lookupFS (setFS t p v) q) = _
      by_cases h2 : e.1 = q
      · rw [if_pos h2, if_neg (fun hc : p = q => he (by rw [h2, ← hc]))]
        show some e.2 = if e.1 = q then some e.2 else lookupFS t q
        rw [if_pos h2]
      · rw [if_neg h2, ih]
        by_cases h : p = q
        · rw [if_pos h, if_pos h]
        · rw [if_neg h, if_neg h]
          show lookupFS t q = if e.1 = q then some e.2 else lookupFS t q
          rw [if_neg h2]

theorem setFS_lookup_self (l : FS) (p : String) (v : Content)
    (h : lookupFS l p = some v) : setFS l p v = l := by
  induction l with
  | nil => simp [lookupFS] at h
  | cons e t ih =>
    by_cases he : e.1 = p
    · have hv : e.2 = v := by
        have := h
        simp only [lookupFS, if_pos he] at this
        exact Option.some.inj this
      show (if e.1 = p then (p, v) :: t else e :: setFS t p v) = e :: t
      rw [if_pos he, ← he, ← hv]
    · have h' : lookupFS t p = some v := by
        have := h
        simp only [lookupFS, if_neg he] at this
        exact this
      show (if e.1 = p then (p, v) :: t else e :: setFS t p v) = e :: t
      rw [if_neg he, ih h']

theorem lookupFS_isSome_setFS (l : FS) (p q : String) (v : Content)
    (h : (lookupFS l q).isSome) : (lookupFS (setFS l p v) q).isSome := by
  rw [lookupFS_setFS]
  by_cases hpq : p = q <;> simp [hpq, h]

theorem keys_setFS (l : FS) (p : String) (v : Content) :
    (setFS l p v).map (fun e => e.1) =
      if p ∈ l.map (fun e => e.1) then l.map (fun e => e.1)
      else l.map (fun e => e.1) ++ [p] := by
  induction l with
  | nil => simp [setFS]
  | cons e t ih =>
    by_cases he : e.1 = p
    · simp [setFS, he]
    · have hpe : ¬ p = e.1 := fun hc => he hc.symm
      show (if e.1 = p then (p, v) :: t else e :: setFS t p v).map (fun e => e.1) = _
      rw [if_neg he]
      simp only [List.map_cons, ih, List.mem_cons]
      by_cases hm : p ∈ t.map (fun e => e.1)
      · simp [hm, hpe]
      · simp [hm, hpe]

theorem NodupKeys_setFS (l : FS) (p : String) (v : Content)
    (h : NodupKeys l) : NodupKeys (setFS l p v) := by
  unfold NodupKeys at h ⊢
  rw [keys_setFS]
  by_cases hmem : p ∈ l.map (fun e => e.1)
  · rw [if_pos hmem]; exact h
  · rw [if_neg hmem]
    rw [List.nodup_append]
    refine ⟨h, List.nodup_singleton p, ?_⟩
    intro a ha hap
    rcases List.mem_singleton.mp hap with rfl
    exact hmem ha

theorem lookupFS_of_mem (l : FS) (p : String) (v : Content)
    (hn : NodupKeys l) (hm : (p, v) ∈ l) : lookupFS l p = some v := by
  induction l with
  | nil => cases hm
  | cons e t ih =>
    unfold NodupKeys at hn
    simp only [List.map_cons, List.nodup_cons] at hn
    rcases List.mem_cons.mp hm with hm | hm
    · show (if e.1 = p then some e.2 else lookupFS t p) = some v
      rw [← hm]
      simp
    · by_cases he : e.1 = p
      · exfalso
        exact hn.1 (List.mem_map.mpr ⟨(p, v), hm, he ▸ rfl⟩)
      · show (if e.1 = p then some e.2 else lookupFS t p) = some v
        rw [if_neg he]
        exact ih hn.2 hm

theorem applyWrites_append (w1 w2 : List WriteRec) (fs : FS) :
    applyWrites (w1 ++ w2) fs = applyWrites w2 (applyWrites w1 fs) := by
  simp [applyWrites, List.foldl_append]

theorem lookupFS_applyWrites (ws : List WriteRec) (fs : FS) (p : String)
    (h : ∀ r ∈ ws, p ≠ r.outputPath) :
    lookupFS (applyWrites ws fs) p = lookupFS fs p := by
  induction ws generalizing fs with
  | nil => rfl
  | cons r t ih =>
    have hr : p ≠ r.outputPath := h r (List.mem_cons_self r t)
    have ht : ∀ x ∈ t, p ≠ x.outputPath := fun x hx => h x (List.mem_cons_of_mem r hx)
    show lookupFS (applyWrites t (setFS fs r.outputPath r.out)) p = lookupFS fs p
    rw [ih _ ht, lookupFS_setFS, if_neg (fun hc => hr hc.symm)]

theorem lookupFS_isSome_applyWrites (ws : List WriteRec) (fs : FS) (p : String)
    (h : (lookupFS fs p).isSome) : (lookupFS (applyWrites ws fs) p).isSome := by
  induction ws generalizing fs with
  | nil => exact h
  | cons r t ih =>
    show (lookupFS (applyWrites t (setFS fs r.outputPath r.out)) p).isSome
    exact ih _ (lookupFS_isSome_setFS _ _ _ _ h)

theorem applyWrites_idem (ws : List WriteRec) (fs : FS)
    (h : (ws.map (fun r => r.outputPath)).Nodup) :
    applyWrites ws (applyWrites ws fs) = applyWrites ws fs := by
  induction ws generalizing fs with
  | nil => rfl
  | cons r t ih =>
    simp only [List.map_cons, List.nodup_cons] at h
    have hrt : ∀ x ∈ t, r.outputPath ≠ x.outputPath := by
      intro x hx hc
      exact h.1 (List.mem_map.mpr ⟨x, hx, hc.symm⟩)
    show applyWrites t (setFS (applyWrites t (setFS fs r.outputPath r.out)) r.outputPath r.out) =
      applyWrites t (setFS fs r.outputPath r.out)
    have hlook : lookupFS (applyWrites t (setFS fs r.outputPath r.out)) r.outputPath = some r.out := by
      rw [lookupFS_applyWrites _ _ _ hrt, lookupFS_setFS, if_pos rfl]
    rw [setFS_lookup_self _ _ _ hlook, ih _ h.2]

/-! ## Case characterizations of the step functions -/

theorem processSize_missing (codec : Codec) (filename : String) (st : RunState)
    (size : SizeSpec) (h : lookupFS st.fs (srcPath filename) = none) :
    processSize codec filename st size =
      { fs := st.fs
        totalConverted := st.totalConverted
        totalFailed := st.totalFailed + 1
        log := st.log ++
          [LogLine.convertError (srcPath filename) "Input file is missing",
           LogLine.failLine (outputNameOf filename size)]
        writes := st.writes } := by
  simp only [processSize, convertImage, h]
  simp

theorem processSize_ok (codec : Codec) (filename : String) (st : RunState)
    (size : SizeSpec) (c out : Content)
    (h : lookupFS st.fs (srcPath filename) = some c)
    (hc : codec c size.width size.quality = Except.ok out) :
    processSize codec filename st size =
      { fs := setFS st.fs (outPath filename size) out
        totalConverted := st.totalConverted + 1
        totalFailed := st.totalFailed
        log := st.log ++ [LogLine.okLine (outputNameOf filename size) (formatMB out.bytes)]
        writes := st.writes ++
          [⟨srcPath filename, outPath filename size, size, c, out⟩] } := by
  simp only [processSize, convertImage, h, hc]
  simp [getFileSize, lookupFS_setFS]

theorem processSize_err (codec : Codec) (filename : String) (st : RunState)
    (size : SizeSpec) (c : Content) (msg : String)
    (h : lookupFS st.fs (srcPath filename) = some c)
    (hc : codec c size.width size.quality = Except.error msg) :
    processSize codec filename st size =
      { fs := st.fs
        totalConverted := st.totalConverted
        totalFailed := st.totalFailed + 1
        log := st.log ++
          [LogLine.convertError (srcPath filename) msg,
           LogLine.failLine (outputNameOf filename size)]
        writes := st.writes } := by
  simp only [processSize, convertImage, h, hc]
  simp

theorem processFile_missing (codec : Codec) (sizes : List SizeSpec)
    (st : RunState) (filename : String)
    (h : lookupFS st.fs (srcPath filename) = none) :
    processFile codec sizes st filename =
      { st with log := st.log ++ [LogLine.skip filename] } := by
  simp only [processFile, h]

theorem processFile_present (codec : Codec) (sizes : List SizeSpec)
    (st : RunState) (filename : String) (c : Content)
    (h : lookupFS st.fs (srcPath filename) = some c) :
    processFile codec sizes st filename =
      sizes.foldl (processSize codec filename)
        { st with log := st.log ++ [LogLine.fileInfo filename (formatMB c.bytes)] } := by
  simp only [processFile, h, getFileSize]

/-! ## State evolution: every step only appends writes/log, and the
filesystem is exactly the initial one with the recorded writes applied -/

/-- `b` is reachable from `a`: the log only grew, and the filesystem is `a`'s
with exactly the newly recorded writes applied. -/
def Evol (a b : RunState) : Prop :=
  (∃ d, b.writes = a.writes ++ d ∧ b.fs = applyWrites d a.fs) ∧
    (∃ e, b.log = a.log ++ e)

theorem evol_refl (a : RunState) : Evol a a :=
  ⟨⟨[], by simp, rfl⟩, ⟨[], by simp⟩⟩

theorem evol_trans {a b c : RunState} (h1 : Evol a b) (h2 : Evol b c) :
    Evol a c := by
  obtain ⟨⟨d1, hw1, hf1⟩, ⟨e1, hl1⟩⟩ := h1
  obtain ⟨⟨d2, hw2, hf2⟩, ⟨e2, hl2⟩⟩ := h2
  refine ⟨⟨d1 ++ d2, ?_, ?_⟩, ⟨e1 ++ e2, ?_⟩⟩
  · rw [hw2, hw1, List.append_assoc]
  · rw [hf2, hf1, applyWrites_append]
  · rw [hl2, hl1, List.append_assoc]

theorem evol_foldl {α : Type} (step : RunState → α → RunState) (l : List α)
    (h : ∀ s x, x ∈ l → Evol s (step s x)) (st : RunState) :
    Evol st (l.foldl step st) := by
  induction l generalizing st with
  | nil => exact evol_refl st
  | cons x t ih =>
    exact evol_trans (h st x (List.mem_cons_self x t))
      (ih (fun s y hy => h s y (List.mem_cons_of_mem x hy)) (step st x))

theorem evol_processSize (codec : Codec) (filename : String) (st : RunState)
    (size : SizeSpec) : Evol st (processSize codec filename st size) := by
  cases hl : lookupFS st.fs (srcPath filename) with
  | none =>
    rw [processSize_missing codec filename st size hl]
    exact ⟨⟨[], by simp, rfl⟩, ⟨_, rfl⟩⟩
  | some c =>
    cases hc : codec c size.width size.quality with
    | ok out =>
      rw [processSize_ok codec filename st size c out hl hc]
      exact ⟨⟨[⟨srcPath filename, outPath filename size, size, c, out⟩], rfl, rfl⟩, ⟨_, rfl⟩⟩
    | error msg =>
      rw [processSize_err codec filename st size c msg hl hc]
      exact ⟨⟨[], by simp, rfl⟩, ⟨_, rfl⟩⟩

theorem evol_processFile (codec : Codec) (sizes : List SizeSpec)
    (st : RunState) (filename : String) :
    Evol st (processFile codec sizes st filename) := by
  cases hl : lookupFS st.fs (srcPath filename) with
  | none =>
    rw [processFile_missing codec sizes st filename hl]
    exact ⟨⟨[], by simp, rfl⟩, ⟨_, rfl⟩⟩
  | some c =>
    rw [processFile_present codec sizes st filename c hl]
    refine evol_trans (b := { st with
      log := st.log ++ [LogLine.fileInfo filename (formatMB c.bytes)] }) ?_ ?_
    · exact ⟨⟨[], by simp, rfl⟩, ⟨_, rfl⟩⟩
    · exact evol_foldl _ _ (fun s x _ => evol_processSize codec filename s x) _

theorem evol_processTier (codec : Codec) (header : String) (tier : TierCfg)
    (st : RunState) : Evol st (processTier codec header tier st) := by
  unfold processTier
  refine evol_trans (b := { st with log := st.log ++ [LogLine.tierHeader header] }) ?_ ?_
  · exact ⟨⟨[], by simp, rfl⟩, ⟨_, rfl⟩⟩
  · exact evol_foldl _ _ (fun s x _ => evol_processFile codec tier.sizes s x) _

theorem evol_summarize (st : RunState) : Evol st (summarize st) :=
  ⟨⟨[], by simp [summarize], rfl⟩, ⟨_, rfl⟩⟩

theorem evol_runCore (codec : Codec) (fs₀ : FS) :
    Evol (initState fs₀) (runCore codec fs₀) := by
  unfold runCore
  exact evol_trans (evol_processTier codec "large" config.large _)
    (evol_trans (evol_processTier codec "product" config.product _)
      (evol_processTier codec "review" config.review _))

theorem runCore_fs_eq (codec : Codec) (fs₀ : FS) :
    (runCore codec fs₀).fs = applyWrites (runCore codec fs₀).writes fs₀ := by
  obtain ⟨⟨d, hw, hf⟩, _⟩ := evol_runCore codec fs₀
  have hd : (runCore codec fs₀).writes = d := by simpa [initState] using hw
  rw [hd, hf]
  rfl

theorem log_mem_of_evol {a b : RunState} (h : Evol a b) {x : LogLine}
    (hx : x ∈ a.log) : x ∈ b.log := by
  obtain ⟨_, ⟨e, hl⟩⟩ := h
  rw [hl]
  exact List.mem_append_left e hx

theorem writes_mem_of_evol {a b : RunState} (h : Evol a b) {r : WriteRec}
    (hr : r ∈ a.writes) : r ∈ b.writes := by
  obtain ⟨⟨d, hw, _⟩, _⟩ := h
  rw [hw]
  exact List.mem_append_left d hr

/-! ## Filesystem frame lemmas: each step only writes output paths -/

theorem processSize_fs_frame (codec : Codec) (f : String) (st : RunState)
    (s : SizeSpec) (p : String) (hp : p ≠ outPath f s) :
    lookupFS (processSize codec f st s).fs p = lookupFS st.fs p := by
  cases hl : lookupFS st.fs (srcPath f) with
  | none => rw [processSize_missing codec f st s hl]
  | some c =>
    cases hc : codec c s.width s.quality with
    | ok out =>
      rw [processSize_ok codec f st s c out hl hc]
      show lookupFS (setFS st.fs (outPath f s) out) p = lookupFS st.fs p
      rw [lookupFS_setFS, if_neg (fun hc2 => hp hc2.symm)]
    | error m => rw [processSize_err codec f st s c m hl hc]

theorem foldSizes_fs_frame (codec : Codec) (f : String) (sizes : List SizeSpec)
    (st : RunState) (p : String) (hp : ∀ s ∈ sizes, p ≠ outPath f s) :
    lookupFS ((sizes.foldl (processSize codec f) st)).fs p = lookupFS st.fs p := by
  induction sizes generalizing st with
  | nil => rfl
  | cons s rest ih =>
    rw [List.foldl_cons,
      ih _ (fun x hx => hp x (List.mem_cons_of_mem s hx)),
      processSize_fs_frame codec f st s p (hp s (List.mem_cons_self s rest))]

theorem processFile_fs_frame (codec : Codec) (sizes : List SizeSpec)
    (st : RunState) (f : String) (p : String)
    (hp : ∀ s ∈ sizes, p ≠ outPath f s) :
    lookupFS (processFile codec sizes st f).fs p = lookupFS st.fs p := by
  cases hl : lookupFS st.fs (srcPath f) with
  | none => rw [processFile_missing codec sizes st f hl]
  | some c =>
    rw [processFile_present codec sizes st f c hl]
    exact foldSizes_fs_frame codec f sizes _ p hp

theorem foldFiles_fs_frame (codec : Codec) (sizes : List SizeSpec)
    (files : List String) (st : RunState) (p : String)
    (hp : ∀ f ∈ files, ∀ s ∈ sizes, p ≠ outPath f s) :
    lookupFS ((files.foldl (processFile codec sizes) st)).fs p = lookupFS st.fs p := by
  induction files generalizing st with
  | nil => rfl
  | cons f rest ih =>
    rw [List.foldl_cons,
      ih _ (fun g hg => hp g (List.mem_cons_of_mem f hg)),
      processFile_fs_frame codec sizes st f p (hp f (List.mem_cons_self f rest))]

theorem processTier_fs_frame (codec : Codec) (header : String) (tier : TierCfg)
    (st : RunState) (p : String) (hp : p ∉ tierOutPaths tier) :
    lookupFS (processTier codec header tier st).fs p = lookupFS st.fs p := by
  unfold processTier
  refine foldFiles_fs_frame codec tier.sizes tier.files _ p ?_
  intro f hf s hs hc
  apply hp
  unfold tierOutPaths
  exact List.mem_flatten.mpr
    ⟨tier.sizes.map (outPath f), List.mem_map.mpr ⟨f, hf, rfl⟩,
     hc ▸ List.mem_map.mpr ⟨s, hs, rfl⟩⟩

theorem runCore_fs_frame (codec : Codec) (fs₀ : FS) (p : String)
    (hp : p ∉ allOutputPaths) :
    lookupFS (runCore codec fs₀).fs p = lookupFS fs₀ p := by
  have h1 : p ∉ tierOutPaths config.large :=
    fun hc => hp (List.mem_append_left _ (List.mem_append_left _ hc))
  have h2 : p ∉ tierOutPaths config.product :=
    fun hc => hp (List.mem_append_left _ (List.mem_append_right _ hc))
  have h3 : p ∉ tierOutPaths config.review :=
    fun hc => hp (List.mem_append_right _ hc)
  unfold runCore
  rw [processTier_fs_frame codec "review" config.review _ p h3,
    processTier_fs_frame codec "product" config.product _ p h2,
    processTier_fs_frame codec "large" config.large _ p h1]
  rfl

/-! ## Counting lemmas: every (file, size) pair with an existing source
bumps exactly one of the two counters -/

theorem processSize_count (codec : Codec) (f : String) (st : RunState)
    (s : SizeSpec) :
    (processSize codec f st s).totalConverted + (processSize codec f st s).totalFailed =
      st.totalConverted + st.totalFailed + 1 := by
  cases hl : lookupFS st.fs (srcPath f) with
  | none =>
    rw [processSize_missing codec f st s hl]
    show st.totalConverted + (st.totalFailed + 1) = st.totalConverted + st.totalFailed + 1
    omega
  | some c =>
    cases hc : codec c s.width s.quality with
    | ok out =>
      rw [processSize_ok codec f st s c out hl hc]
      show st.totalConverted + 1 + st.totalFailed = st.totalConverted + st.totalFailed + 1
      omega
    | error m =>
      rw [processSize_err codec f st s c m hl hc]
      show st.totalConverted + (st.totalFailed + 1) = st.totalConverted + st.totalFailed + 1
      omega

theorem foldSizes_count (codec : Codec) (f : String) (sizes : List SizeSpec)
    (st : RunState) :
    ((sizes.foldl (processSize codec f) st)).totalConverted +
        ((sizes.foldl (processSize codec f) st)).totalFailed =
      st.totalConverted + st.totalFailed + sizes.length := by
  induction sizes generalizing st with
  | nil => rfl
  | cons s rest ih =>
    rw [List.foldl_cons]
    have h1 := processSize_count codec f st s
    have h2 := ih (processSize codec f st s)
    rw [h2, h1]
    simp [Nat.add_assoc, Nat.add_comm]
    omega

theorem processFile_count (codec : Codec) (sizes : List SizeSpec)
    (st : RunState) (f : String) :
    (processFile codec sizes st f).totalConverted +
        (processFile codec sizes st f).totalFailed =
      st.totalConverted + st.totalFailed +
        (if (lookupFS st.fs (srcPath f)).isSome then sizes.length else 0) := by
  cases hl : lookupFS st.fs (srcPath f) with
  | none =>
    rw [processFile_missing codec sizes st f hl]
    simp
  | some c =>
    rw [processFile_present codec sizes st f c hl]
    have := foldSizes_count codec f sizes
      { st with log := st.log ++ [LogLine.fileInfo f (formatMB c.bytes)] }
    simp only [Option.isSome_some, if_true]
    rw [this]

theorem foldFiles_count (codec : Codec) (sizes : List SizeSpec) (fs₀ : FS)
    (files : List String) (st : RunState)
    (hsrc : ∀ g ∈ files, lookupFS st.fs (srcPath g) = lookupFS fs₀ (srcPath g))
    (hd : ∀ g ∈ files, ∀ f ∈ files, ∀ s ∈ sizes, srcPath g ≠ outPath f s) :
    ((files.foldl (processFile codec sizes) st)).totalConverted +
        ((files.foldl (processFile codec sizes) st)).totalFailed =
      st.totalConverted + st.totalFailed +
        (files.map (fun f =>
          if (lookupFS fs₀ (srcPath f)).isSome then sizes.length else 0)).sum := by
  induction files generalizing st with
  | nil => simp
  | cons f rest ih =>
    rw [List.foldl_cons, List.map_cons, List.sum_cons]
    have h1 : (processFile codec sizes st f).totalConverted +
        (processFile codec sizes st f).totalFailed =
        st.totalConverted + st.totalFailed +
          (if (lookupFS fs₀ (srcPath f)).isSome then sizes.length else 0) := by
      rw [← hsrc f (List.mem_cons_self f rest)]
      exact processFile_count codec sizes st f
    have hsrc' : ∀ g ∈ rest,
        lookupFS (processFile codec sizes st f).fs (srcPath g) =
          lookupFS fs₀ (srcPath g) := by
      intro g hg
      rw [processFile_fs_frame codec sizes st f (srcPath g)
        (fun s hs => hd g (List.mem_cons_of_mem f hg) f (List.mem_cons_self f rest) s hs)]
      exact hsrc g (List.mem_cons_of_mem f hg)
    have hd' : ∀ g ∈ rest, ∀ f' ∈ rest, ∀ s ∈ sizes, srcPath g ≠ outPath f' s :=
      fun g hg f' hf' s hs =>
        hd g (List.mem_cons_of_mem f hg) f' (List.mem_cons_of_mem f hf') s hs
    rw [ih _ hsrc' hd', h1]
    omega

/-! ## Concrete facts about the hard-coded configuration -/

/-- No configured source path is ever an output path: sources end in `.png`,
outputs in `.webp`. -/
theorem srcPath_not_out : ∀ f ∈ allFiles, srcPath f ∉ allOutputPaths := by decide

/-- All 45 output paths the table can produce are pairwise distinct. -/
theorem allOutputPaths_nodup : allOutputPaths.Nodup := by decide

theorem mem_allFiles_large {f : String} (h : f ∈ config.large.files) :
    f ∈ allFiles := by
  unfold allFiles
  simp only [List.mem_append]
  tauto

theorem mem_allFiles_product {f : String} (h : f ∈ config.product.files) :
    f ∈ allFiles := by
  unfold allFiles
  simp only [List.mem_append]
  tauto

theorem mem_allFiles_review {f : String} (h : f ∈ config.review.files) :
    f ∈ allFiles := by
  unfold allFiles
  simp only [List.mem_append]
  tauto

theorem outPath_mem_tierOutPaths (t : TierCfg) {f : String} {s : SizeSpec}
    (hf : f ∈ t.files) (hs : s ∈ t.sizes) : outPath f s ∈ tierOutPaths t := by
  unfold tierOutPaths
  exact List.mem_flatten.mpr
    ⟨t.sizes.map (outPath f), List.mem_map.mpr ⟨f, hf, rfl⟩,
     List.mem_map.mpr ⟨s, hs, rfl⟩⟩

theorem tierOutPaths_sub_large {p : String} (h : p ∈ tierOutPaths config.large) :
    p ∈ allOutputPaths := by
  unfold allOutputPaths
  simp only [List.mem_append]
  tauto

theorem tierOutPaths_sub_product {p : String} (h : p ∈ tierOutPaths config.product) :
    p ∈ allOutputPaths := by
  unfold allOutputPaths
  simp only [List.mem_append]
  tauto

theorem tierOutPaths_sub_review {p : String} (h : p ∈ tierOutPaths config.review) :
    p ∈ allOutputPaths := by
  unfold allOutputPaths
  simp only [List.mem_append]
  tauto

/-- Within-tier disjointness of sources and outputs, derived from the global
concrete fact. -/
theorem tier_src_out_disjoint (t : TierCfg)
    (hmemF : ∀ f ∈ t.files, f ∈ allFiles)
    (hsub : ∀ p ∈ tierOutPaths t, p ∈ allOutputPaths) :
    ∀ g ∈ t.files, ∀ f ∈ t.files, ∀ s ∈ t.sizes, srcPath g ≠ outPath f s := by
  intro g hg f hf s hs hc
  exact srcPath_not_out g (hmemF g hg)
    (hc ▸ hsub _ (outPath_mem_tierOutPaths t hf hs))

/-! ## Tier- and run-level counting -/

theorem processTier_count (codec : Codec) (header : String) (t : TierCfg)
    (fs₀ : FS) (st : RunState)
    (hsrc : ∀ g ∈ t.files, lookupFS st.fs (srcPath g) = lookupFS fs₀ (srcPath g))
    (hd : ∀ g ∈ t.files, ∀ f ∈ t.files, ∀ s ∈ t.sizes, srcPath g ≠ outPath f s) :
    (processTier codec header t st).totalConverted +
        (processTier codec header t st).totalFailed =
      st.totalConverted + st.totalFailed + tierAttempted fs₀ t := by
  unfold processTier tierAttempted
  exact foldFiles_count codec t.sizes fs₀ t.files _ hsrc hd

theorem runCore_count (codec : Codec) (fs₀ : FS) :
    (runCore codec fs₀).totalConverted + (runCore codec fs₀).totalFailed =
      attemptedPairs fs₀ := by
  unfold runCore
  have hinit : (initState fs₀).fs = fs₀ := rfl
  set st1 := processTier codec "large" config.large (initState fs₀) with hst1
  set st2 := processTier codec "product" config.product st1 with hst2
  have hd1 := tier_src_out_disjoint config.large
    (fun f hf => mem_allFiles_large hf) (fun p hp => tierOutPaths_sub_large hp)
  have hd2 := tier_src_out_disjoint config.product
    (fun f hf => mem_allFiles_product hf) (fun p hp => tierOutPaths_sub_product hp)
  have hd3 := tier_src_out_disjoint config.review
    (fun f hf => mem_allFiles_review hf) (fun p hp => tierOutPaths_sub_review hp)
  have hc1 : st1.totalConverted + st1.totalFailed = tierAttempted fs₀ config.large := by
    rw [hst1, processTier_count codec "large" config.large fs₀ (initState fs₀)
      (fun g _ => rfl) hd1]
    show 0 + 0 + tierAttempted fs₀ config.large = tierAttempted fs₀ config.large
    omega
  have hsrc1 : ∀ g ∈ allFiles, lookupFS st1.fs (srcPath g) = lookupFS fs₀ (srcPath g) := by
    intro g hg
    rw [hst1, processTier_fs_frame codec "large" config.large _ (srcPath g)
      (fun hc => srcPath_not_out g hg (tierOutPaths_sub_large hc))]
    rfl
  have hc2 : st2.totalConverted + st2.totalFailed =
      tierAttempted fs₀ config.large + tierAttempted fs₀ config.product := by
    rw [hst2, processTier_count codec "product" config.product fs₀ st1
      (fun g hg => hsrc1 g (mem_allFiles_product hg)) hd2, hc1]
  have hsrc2 : ∀ g ∈ allFiles, lookupFS st2.fs (srcPath g) = lookupFS fs₀ (srcPath g) := by
    intro g hg
    rw [hst2, processTier_fs_frame codec "product" config.product _ (srcPath g)
      (fun hc => srcPath_not_out g hg (tierOutPaths_sub_product hc))]
    exact hsrc1 g hg
  rw [processTier_count codec "review" config.review fs₀ st2
    (fun g hg => hsrc2 g (mem_allFiles_review hg)) hd3, hc2]
  unfold attemptedPairs
  omega

/-! ## Projection helpers -/

theorem processImages_fst (codec : Codec) (fs₀ : FS) :
    (processImages codec fs₀).1 = summarize (runCore codec fs₀) := rfl

theorem processImages_snd (codec : Codec) (fs₀ : FS) :
    (processImages codec fs₀).2 = none := rfl

theorem summarize_totalConverted (st : RunState) :
    (summarize st).totalConverted = st.totalConverted := rfl

theorem summarize_totalFailed (st : RunState) :
    (summarize st).totalFailed = st.totalFailed := rfl

theorem summarize_fs (st : RunState) : (summarize st).fs = st.fs := rfl

theorem summarize_writes (st : RunState) : (summarize st).writes = st.writes := rfl

theorem convertImage_none (codec : Codec) (fs : FS) (ip op : String) (w q : Nat)
    (h : lookupFS fs ip = none) :
    convertImage codec fs ip op w q =
      ⟨fs, false, [LogLine.convertError ip "Input file is missing"], []⟩ := by
  unfold convertImage
  rw [h]

theorem convertImage_some_ok (codec : Codec) (fs : FS) (ip op : String)
    (w q : Nat) (src out : Content) (h : lookupFS fs ip = some src)
    (hc : codec src w q = Except.ok out) :
    convertImage codec fs ip op w q =
      ⟨setFS fs op out, true, [], [(op, src, out)]⟩ := by
  simp only [convertImage, h, hc]

theorem convertImage_some_err (codec : Codec) (fs : FS) (ip op : String)
    (w q : Nat) (src : Content) (m : String) (h : lookupFS fs ip = some src)
    (hc : codec src w q = Except.error m) :
    convertImage codec fs ip op w q =
      ⟨fs, false, [LogLine.convertError ip m], []⟩ := by
  simp only [convertImage, h, hc]

/-! ## Sample codecs (concrete instantiations for witnesses) -/

/-- A codec that always succeeds and never enlarges: the output width is the
target width capped by the source width. -/
def okCodec : Codec := fun c w _q => Except.ok ⟨min c.width w, c.bytes / 2 + 1⟩

/-- A codec that always fails with a fixed message. -/
def errCodec : Codec := fun _ _ _ => Except.error "boom"

/-! ## Claim theorems -/

/-- C2: for every run, the final succeeded count plus the final failed count
equals the number of (file, size-spec) pairs whose source file existed: each
such pair increments exactly one of the two counters, and pairs whose source
was missing increment neither. -/
theorem C2_tally_partition (codec : Codec) (fs₀ : FS) :
    (processImages codec fs₀).1.totalConverted +
        (processImages codec fs₀).1.totalFailed =
      attemptedPairs fs₀ := by
  rw [processImages_fst, summarize_totalConverted, summarize_totalFailed]
  exact runCore_count codec fs₀

/-- C1 counterexample: the claim says `processImages` returns the final tally
as a `ConversionResult`, "not an empty/undefined result"; but the JavaScript
function has no `return` statement, so at any concrete input its resolution
value is `undefined` (modelled `none`), not a tally. -/
theorem C1_counterexample : (processImages okCodec []).2 = none :=
  processImages_snd okCodec []

/-- C1 (amended): `processImages` does not return the tally (its promise
resolves to `undefined`); instead, after traversing all tiers the final tally
is reported in the run's completion summary, which carries the final
succeeded and failed counts. -/
theorem C1_tally_logged (codec : Codec) (fs₀ : FS) :
    LogLine.summary (processImages codec fs₀).1.totalConverted
        (processImages codec fs₀).1.totalFailed ∈ (processImages codec fs₀).1.log := by
  show LogLine.summary (summarize (runCore codec fs₀)).totalConverted
      (summarize (runCore codec fs₀)).totalFailed ∈ (summarize (runCore codec fs₀)).log
  simp [summarize]

/-- C6: the process exits with status 0 whenever the batch traversal
completes — for every codec and filesystem, hence regardless of how many
per-item conversions failed or were skipped — and exits non-zero exactly when
an error escapes the top-level run, in which case the error is reported. -/
theorem C6_exit_codes :
    (∀ (codec : Codec) (fs₀ : FS), (mainExit codec fs₀).1 = 0) ∧
    (∀ r, (catchHandler r).1 ≠ 0 ↔ ∃ e, r = Except.error e) ∧
    (∀ e, catchHandler (Except.error e) = (1, [LogLine.fatalError e])) := by
  refine ⟨fun codec fs₀ => rfl, fun r => ?_, fun e => rfl⟩
  cases r with
  | ok v => simp [catchHandler]
  | error e => simp [catchHandler]

/-- C10: `convertImage` is total at the item boundary: for every input it
either returns `true` (the codec succeeded and the output was written) or
`false` (the codec/filesystem error was caught and its message logged, with
no write performed) — no third outcome exists that could abort the
surrounding loop; likewise `getFileSize` returns the placeholder `"N/A"`
instead of throwing when the size read fails. -/
theorem C10_item_boundary_total :
    (∀ (codec : Codec) (fs : FS) (ip op : String) (w q : Nat),
      ((convertImage codec fs ip op w q).ok = true ∧
        ∃ src out, lookupFS fs ip = some src ∧ codec src w q = Except.ok out ∧
          (convertImage codec fs ip op w q).fs = setFS fs op out ∧
          (convertImage codec fs ip op w q).wr = [(op, src, out)] ∧
          (convertImage codec fs ip op w q).log = []) ∨
      ((convertImage codec fs ip op w q).ok = false ∧
        (convertImage codec fs ip op w q).fs = fs ∧
        (convertImage codec fs ip op w q).wr = [] ∧
        ∃ msg, (convertImage codec fs ip op w q).log = [LogLine.convertError ip msg])) ∧
    (∀ (fs : FS) (p : String), lookupFS fs p = none → getFileSize fs p = "N/A") := by
  constructor
  · intro codec fs ip op w q
    cases hl : lookupFS fs ip with
    | none =>
      rw [convertImage_none codec fs ip op w q hl]
      exact Or.inr ⟨rfl, rfl, rfl, "Input file is missing", rfl⟩
    | some src =>
      cases hc : codec src w q with
      | ok out =>
        rw [convertImage_some_ok codec fs ip op w q src out hl hc]
        exact Or.inl ⟨rfl, src, out, rfl, hc, rfl, rfl, rfl⟩
      | error m =>
        rw [convertImage_some_err codec fs ip op w q src m hl hc]
        exact Or.inr ⟨rfl, rfl, rfl, m, rfl⟩
  · intro fs p h
    unfold getFileSize
    rw [h]

/-- C10 witness: the placeholder branch at a concrete missing path. -/
theorem C10_witness : getFileSize [] (srcPath "004.png") = "N/A" :=
  C10_item_boundary_total.2 [] (srcPath "004.png") rfl

/-! ## Stage decomposition of the run and source-path stability -/

/-- The run state after the "large" tier block. -/
def stage1 (codec : Codec) (fs₀ : FS) : RunState :=
  processTier codec "large" config.large (initState fs₀)

/-- The run state after the "large" and "product" tier blocks. -/
def stage2 (codec : Codec) (fs₀ : FS) : RunState :=
  processTier codec "product" config.product (stage1 codec fs₀)

theorem runCore_eq (codec : Codec) (fs₀ : FS) :
    runCore codec fs₀ = processTier codec "review" config.review (stage2 codec fs₀) := rfl

theorem stage1_src_stable (codec : Codec) (fs₀ : FS) (g : String)
    (hg : g ∈ allFiles) :
    lookupFS (stage1 codec fs₀).fs (srcPath g) = lookupFS fs₀ (srcPath g) := by
  unfold stage1
  rw [processTier_fs_frame codec "large" config.large _ (srcPath g)
    (fun hc => srcPath_not_out g hg (tierOutPaths_sub_large hc))]
  rfl

theorem stage2_src_stable (codec : Codec) (fs₀ : FS) (g : String)
    (hg : g ∈ allFiles) :
    lookupFS (stage2 codec fs₀).fs (srcPath g) = lookupFS fs₀ (srcPath g) := by
  unfold stage2
  rw [processTier_fs_frame codec "product" config.product _ (srcPath g)
    (fun hc => srcPath_not_out g hg (tierOutPaths_sub_product hc))]
  exact stage1_src_stable codec fs₀ g hg

theorem runCore_src_stable (codec : Codec) (fs₀ : FS) (g : String)
    (hg : g ∈ allFiles) :
    lookupFS (runCore codec fs₀).fs (srcPath g) = lookupFS fs₀ (srcPath g) := by
  rw [runCore_eq, processTier_fs_frame codec "review" config.review _ (srcPath g)
    (fun hc => srcPath_not_out g hg (tierOutPaths_sub_review hc))]
  exact stage2_src_stable codec fs₀ g hg

/-- A configured source path differs from every output path one tier can
write. -/
theorem srcPath_ne_outPath_tier (t : TierCfg) (f : String) (hf : f ∈ allFiles)
    (hsub : ∀ p ∈ tierOutPaths t, p ∈ allOutputPaths) :
    ∀ g ∈ t.files, ∀ s ∈ t.sizes, srcPath f ≠ outPath g s := by
  intro g hg s hs hc
  exact srcPath_not_out f hf (hc ▸ hsub _ (outPath_mem_tierOutPaths t hg hs))

/-! ## Characterization of the recorded writes -/

theorem foldSizes_writes_inputPath (codec : Codec) (f : String)
    (sizes : List SizeSpec) (st : RunState) :
    ∀ r ∈ ((sizes.foldl (processSize codec f) st)).writes,
      r ∈ st.writes ∨ r.inputPath = srcPath f := by
  induction sizes generalizing st with
  | nil => intro r hr; exact Or.inl hr
  | cons s rest ih =>
    intro r hr
    rw [List.foldl_cons] at hr
    rcases ih (processSize codec f st s) r hr with h | h
    · cases hl : lookupFS st.fs (srcPath f) with
      | none =>
        rw [processSize_missing codec f st s hl] at h
        exact Or.inl h
      | some c =>
        cases hc : codec c s.width s.quality with
        | ok out =>
          rw [processSize_ok codec f st s c out hl hc] at h
          rcases List.mem_append.mp h with h2 | h2
          · exact Or.inl h2
          · rcases List.mem_singleton.mp h2 with rfl
            exact Or.inr rfl
        | error m =>
          rw [processSize_err codec f st s c m hl hc] at h
          exact Or.inl h
    · exact Or.inr h

theorem processFile_writes (codec : Codec) (sizes : List SizeSpec)
    (st : RunState) (f : String) :
    ∀ r ∈ (processFile codec sizes st f).writes,
      r ∈ st.writes ∨
        (r.inputPath = srcPath f ∧ (lookupFS st.fs (srcPath f)).isSome) := by
  intro r hr
  cases hl : lookupFS st.fs (srcPath f) with
  | none =>
    rw [processFile_missing codec sizes st f hl] at hr
    exact Or.inl hr
  | some c =>
    rw [processFile_present codec sizes st f c hl] at hr
    rcases foldSizes_writes_inputPath codec f sizes _ r hr with h | h
    · exact Or.inl h
    · exact Or.inr ⟨h, by simp [hl]⟩

theorem foldFiles_writes (codec : Codec) (sizes : List SizeSpec) (fs₀ : FS)
    (files : List String) :
    ∀ st : RunState,
    (∀ g ∈ files, lookupFS st.fs (srcPath g) = lookupFS fs₀ (srcPath g)) →
    (∀ g ∈ files, ∀ f' ∈ files, ∀ s ∈ sizes, srcPath g ≠ outPath f' s) →
    ∀ r ∈ ((files.foldl (processFile codec sizes) st)).writes,
      r ∈ st.writes ∨
        ∃ g, g ∈ files ∧ r.inputPath = srcPath g ∧
          (lookupFS fs₀ (srcPath g)).isSome := by
  induction files with
  | nil => intro st _ _ r hr; exact Or.inl hr
  | cons f rest ih =>
    intro st hsrc hd r hr
    rw [List.foldl_cons] at hr
    have hsrc' : ∀ g ∈ rest,
        lookupFS (processFile codec sizes st f).fs (srcPath g) =
          lookupFS fs₀ (srcPath g) := by
      intro g hg
      rw [processFile_fs_frame codec sizes st f (srcPath g)
        (fun s hs => hd g (List.mem_cons_of_mem f hg) f (List.mem_cons_self f rest) s hs)]
      exact hsrc g (List.mem_cons_of_mem f hg)
    have hd' : ∀ g ∈ rest, ∀ f' ∈ rest, ∀ s ∈ sizes, srcPath g ≠ outPath f' s :=
      fun g hg f' hf' s hs =>
        hd g (List.mem_cons_of_mem f hg) f' (List.mem_cons_of_mem f hf') s hs
    rcases ih (processFile codec sizes st f) hsrc' hd' r hr with h | h
    · rcases processFile_writes codec sizes st f r h with h2 | h2
      · exact Or.inl h2
      · refine Or.inr ⟨f, List.mem_cons_self f rest, h2.1, ?_⟩
        rw [← hsrc f (List.mem_cons_self f rest)]
        exact h2.2
    · rcases h with ⟨g, hg, h3, h4⟩
      exact Or.inr ⟨g, List.mem_cons_of_mem f hg, h3, h4⟩

theorem processTier_writes (codec : Codec) (header : String) (t : TierCfg)
    (fs₀ : FS) (st : RunState)
    (hsrc : ∀ g ∈ t.files, lookupFS st.fs (srcPath g) = lookupFS fs₀ (srcPath g))
    (hd : ∀ g ∈ t.files, ∀ f' ∈ t.files, ∀ s ∈ t.sizes, srcPath g ≠ outPath f' s) :
    ∀ r ∈ (processTier codec header t st).writes,
      r ∈ st.writes ∨
        ∃ g, g ∈ t.files ∧ r.inputPath = srcPath g ∧
          (lookupFS fs₀ (srcPath g)).isSome := by
  unfold processTier
  exact foldFiles_writes codec t.sizes fs₀ t.files _ hsrc hd

/-- Every write the run performs comes from a configured file whose source
existed in the initial filesystem. -/
theorem runCore_writes_char (codec : Codec) (fs₀ : FS) :
    ∀ r ∈ (runCore codec fs₀).writes,
      ∃ g, g ∈ allFiles ∧ r.inputPath = srcPath g ∧
        (lookupFS fs₀ (srcPath g)).isSome := by
  intro r hr
  rw [runCore_eq] at hr
  have hd1 := tier_src_out_disjoint config.large
    (fun f hf => mem_allFiles_large hf) (fun p hp => tierOutPaths_sub_large hp)
  have hd2 := tier_src_out_disjoint config.product
    (fun f hf => mem_allFiles_product hf) (fun p hp => tierOutPaths_sub_product hp)
  have hd3 := tier_src_out_disjoint config.review
    (fun f hf => mem_allFiles_review hf) (fun p hp => tierOutPaths_sub_review hp)
  rcases processTier_writes codec "review" config.review fs₀ (stage2 codec fs₀)
    (fun g hg => stage2_src_stable codec fs₀ g (mem_allFiles_review hg)) hd3 r hr with h | h
  · rcases processTier_writes codec "product" config.product fs₀ (stage1 codec fs₀)
      (fun g hg => stage1_src_stable codec fs₀ g (mem_allFiles_product hg)) hd2 r h with h2 | h2
    · rcases processTier_writes codec "large" config.large fs₀ (initState fs₀)
        (fun g _ => rfl) hd1 r h2 with h3 | h3
      · exact absurd h3 (List.not_mem_nil r)
      · rcases h3 with ⟨g, hg, ha, hb⟩
        exact ⟨g, mem_allFiles_large hg, ha, hb⟩
    · rcases h2 with ⟨g, hg, ha, hb⟩
      exact ⟨g, mem_allFiles_product hg, ha, hb⟩
  · rcases h with ⟨g, hg, ha, hb⟩
    exact ⟨g, mem_allFiles_review hg, ha, hb⟩

/-! ## Skip notices reach the final log -/

theorem foldFiles_skip_mem (codec : Codec) (sizes : List SizeSpec)
    (files : List String) (st : RunState) (f : String) (hf : f ∈ files)
    (hmiss : lookupFS st.fs (srcPath f) = none)
    (hd : ∀ g ∈ files, ∀ s ∈ sizes, srcPath f ≠ outPath g s) :
    LogLine.skip f ∈ ((files.foldl (processFile codec sizes) st)).log := by
  induction files generalizing st with
  | nil => cases hf
  | cons g rest ih =>
    rw [List.foldl_cons]
    rcases List.mem_cons.mp hf with heq | hf'
    · subst heq
      apply log_mem_of_evol
        (evol_foldl _ rest (fun s x _ => evol_processFile codec sizes s x) _)
      rw [processFile_missing codec sizes st f hmiss]
      show LogLine.skip f ∈ st.log ++ [LogLine.skip f]
      simp
    · refine ih (processFile codec sizes st g) hf' ?_
        (fun g' hg' s hs => hd g' (List.mem_cons_of_mem g hg') s hs)
      rw [processFile_fs_frame codec sizes st g (srcPath f)
        (fun s hs => hd g (List.mem_cons_self g rest) s hs)]
      exact hmiss

theorem processTier_skip_mem (codec : Codec) (header : String) (t : TierCfg)
    (st : RunState) (f : String) (hf : f ∈ t.files)
    (hmiss : lookupFS st.fs (srcPath f) = none)
    (hd : ∀ g ∈ t.files, ∀ s ∈ t.sizes, srcPath f ≠ outPath g s) :
    LogLine.skip f ∈ (processTier codec header t st).log := by
  unfold processTier
  exact foldFiles_skip_mem codec t.sizes t.files _ f hf hmiss hd

/-- C3: for every configured filename whose source path does not exist, the
run emits a skip notice and continues to the next filename.  Locally, the
loop body is exactly a skip: no codec invocation, no write, counters and
filesystem untouched, one notice appended.  Globally, for a source missing
from the initial filesystem the skip notice reaches the final log and no
write of the whole run stems from that file. -/
theorem C3_missing_source_soft_skip :
    (∀ (codec : Codec) (sizes : List SizeSpec) (st : RunState) (f : String),
      lookupFS st.fs (srcPath f) = none →
      processFile codec sizes st f = { st with log := st.log ++ [LogLine.skip f] }) ∧
    (∀ (codec : Codec) (fs₀ : FS) (f : String), f ∈ allFiles →
      lookupFS fs₀ (srcPath f) = none →
      LogLine.skip f ∈ (processImages codec fs₀).1.log ∧
        ∀ r ∈ (processImages codec fs₀).1.writes, r.inputPath ≠ srcPath f) := by
  constructor
  · exact fun codec sizes st f h => processFile_missing codec sizes st f h
  · intro codec fs₀ f hf hmiss
    constructor
    · rw [processImages_fst]
      apply log_mem_of_evol (evol_summarize (runCore codec fs₀))
      rw [runCore_eq]
      have hf' := hf
      unfold allFiles at hf'
      rcases List.mem_append.mp hf' with h12 | h3
      · rcases List.mem_append.mp h12 with hL | hP
        · have h1 : LogLine.skip f ∈ (stage1 codec fs₀).log :=
            processTier_skip_mem codec "large" config.large (initState fs₀) f hL
              hmiss
              (srcPath_ne_outPath_tier config.large f hf
                (fun p hp => tierOutPaths_sub_large hp))
          exact log_mem_of_evol (evol_processTier codec "review" config.review _)
            (log_mem_of_evol (evol_processTier codec "product" config.product _) h1)
        · have h1 : LogLine.skip f ∈ (stage2 codec fs₀).log :=
            processTier_skip_mem codec "product" config.product (stage1 codec fs₀) f hP
              (by rw [stage1_src_stable codec fs₀ f hf]; exact hmiss)
              (srcPath_ne_outPath_tier config.product f hf
                (fun p hp => tierOutPaths_sub_product hp))
          exact log_mem_of_evol (evol_processTier codec "review" config.review _) h1
      · exact processTier_skip_mem codec "review" config.review (stage2 codec fs₀) f h3
          (by rw [stage2_src_stable codec fs₀ f hf]; exact hmiss)
          (srcPath_ne_outPath_tier config.review f hf
            (fun p hp => tierOutPaths_sub_review hp))
    · intro r hr hceq
      rw [processImages_fst, summarize_writes] at hr
      rcases runCore_writes_char codec fs₀ r hr with ⟨g, hg, h1, h2⟩
      rw [hceq] at h1
      rw [← h1, hmiss] at h2
      simp at h2

/-- C3 witness: with an empty filesystem, the run skips `2.png` and performs
no write for it. -/
theorem C3_witness :
    LogLine.skip "2.png" ∈ (processImages okCodec []).1.log ∧
      ∀ r ∈ (processImages okCodec []).1.writes, r.inputPath ≠ srcPath "2.png" :=
  C3_missing_source_soft_skip.2 okCodec [] "2.png" (by decide) rfl

/-- C4: for every (file, size-spec) pair where the codec raises an error,
that pair is counted as failed and the underlying error message is logged,
and nothing else changes — so the traversal continues undisturbed; moreover
the size-spec loop counts every spec of the file exactly once regardless of
outcomes, and the whole run's final tally still covers every pair whose
source existed. -/
theorem C4_codec_failure_soft :
    (∀ (codec : Codec) (f : String) (st : RunState) (s : SizeSpec)
        (c : Content) (msg : String),
      lookupFS st.fs (srcPath f) = some c →
      codec c s.width s.quality = Except.error msg →
      processSize codec f st s =
        { fs := st.fs
          totalConverted := st.totalConverted
          totalFailed := st.totalFailed + 1
          log := st.log ++
            [LogLine.convertError (srcPath f) msg,
             LogLine.failLine (outputNameOf f s)]
          writes := st.writes }) ∧
    (∀ (codec : Codec) (f : String) (sizes : List SizeSpec) (st : RunState),
      ((sizes.foldl (processSize codec f) st)).totalConverted +
          ((sizes.foldl (processSize codec f) st)).totalFailed =
        st.totalConverted + st.totalFailed + sizes.length) ∧
    (∀ (codec : Codec) (fs₀ : FS),
      (runCore codec fs₀).totalConverted + (runCore codec fs₀).totalFailed =
        attemptedPairs fs₀) :=
  ⟨fun codec f st s c msg h hc => processSize_err codec f st s c msg h hc,
   fun codec f sizes st => foldSizes_count codec f sizes st,
   fun codec fs₀ => runCore_count codec fs₀⟩

/-- C4 witness: a failing codec call on an existing source at a concrete
state: counted as failed, message logged, state otherwise untouched. -/
theorem C4_witness :
    processSize errCodec "004.png"
        (initState [(srcPath "004.png", ⟨2000, 100⟩)]) ⟨"small", 640, 75⟩ =
      { fs := (initState [(srcPath "004.png", ⟨2000, 100⟩)]).fs
        totalConverted := (initState [(srcPath "004.png", ⟨2000, 100⟩)]).totalConverted
        totalFailed := (initState [(srcPath "004.png", ⟨2000, 100⟩)]).totalFailed + 1
        log := (initState [(srcPath "004.png", ⟨2000, 100⟩)]).log ++
          [LogLine.convertError (srcPath "004.png") "boom",
           LogLine.failLine (outputNameOf "004.png" ⟨"small", 640, 75⟩)]
        writes := (initState [(srcPath "004.png", ⟨2000, 100⟩)]).writes } :=
  C4_codec_failure_soft.1 errCodec "004.png"
    (initState [(srcPath "004.png", ⟨2000, 100⟩)]) ⟨"small", 640, 75⟩
    ⟨2000, 100⟩ "boom" (by simp [initState, lookupFS]) rfl

/-! ## Invariant preservation over the recorded writes -/

theorem foldl_writes_inv {α : Type} (step : RunState → α → RunState)
    (l : List α) (st : RunState) (P : WriteRec → Prop)
    (hstep : ∀ s x, x ∈ l → (∀ r ∈ s.writes, P r) → ∀ r ∈ (step s x).writes, P r)
    (h : ∀ r ∈ st.writes, P r) : ∀ r ∈ (l.foldl step st).writes, P r := by
  induction l generalizing st with
  | nil => exact h
  | cons x t ih =>
    rw [List.foldl_cons]
    exact ih _ (fun s y hy => hstep s y (List.mem_cons_of_mem x hy))
      (hstep st x (List.mem_cons_self x t) h)

theorem processSize_writes_width (codec : Codec)
    (hcon : ∀ (c : Content) (w q : Nat) (out : Content),
      codec c w q = Except.ok out → out.width ≤ w ∧ out.width ≤ c.width)
    (f : String) (st : RunState) (s : SizeSpec)
    (h : ∀ r ∈ st.writes, r.out.width ≤ r.spec.width ∧ r.out.width ≤ r.src.width) :
    ∀ r ∈ (processSize codec f st s).writes,
      r.out.width ≤ r.spec.width ∧ r.out.width ≤ r.src.width := by
  intro r hr
  cases hl : lookupFS st.fs (srcPath f) with
  | none =>
    rw [processSize_missing codec f st s hl] at hr
    exact h r hr
  | some c =>
    cases hc : codec c s.width s.quality with
    | ok out =>
      rw [processSize_ok codec f st s c out hl hc] at hr
      rcases List.mem_append.mp hr with h2 | h2
      · exact h r h2
      · rcases List.mem_singleton.mp h2 with rfl
        exact hcon c s.width s.quality out hc
    | error m =>
      rw [processSize_err codec f st s c m hl hc] at hr
      exact h r hr

theorem processFile_writes_width (codec : Codec)
    (hcon : ∀ (c : Content) (w q : Nat) (out : Content),
      codec c w q = Except.ok out → out.width ≤ w ∧ out.width ≤ c.width)
    (sizes : List SizeSpec) (st : RunState) (f : String)
    (h : ∀ r ∈ st.writes, r.out.width ≤ r.spec.width ∧ r.out.width ≤ r.src.width) :
    ∀ r ∈ (processFile codec sizes st f).writes,
      r.out.width ≤ r.spec.width ∧ r.out.width ≤ r.src.width := by
  intro r hr
  cases hl : lookupFS st.fs (srcPath f) with
  | none =>
    rw [processFile_missing codec sizes st f hl] at hr
    exact h r hr
  | some c =>
    rw [processFile_present codec sizes st f c hl] at hr
    exact foldl_writes_inv (processSize codec f) sizes
      { st with log := st.log ++ [LogLine.fileInfo f (formatMB c.bytes)] } _
      (fun s x _ hx => processSize_writes_width codec hcon f s x hx) h r hr

theorem processTier_writes_width (codec : Codec)
    (hcon : ∀ (c : Content) (w q : Nat) (out : Content),
      codec c w q = Except.ok out → out.width ≤ w ∧ out.width ≤ c.width)
    (header : String) (t : TierCfg) (st : RunState)
    (h : ∀ r ∈ st.writes, r.out.width ≤ r.spec.width ∧ r.out.width ≤ r.src.width) :
    ∀ r ∈ (processTier codec header t st).writes,
      r.out.width ≤ r.spec.width ∧ r.out.width ≤ r.src.width := by
  unfold processTier
  exact foldl_writes_inv (processFile codec t.sizes) t.files _ _
    (fun s x _ hx => processFile_writes_width codec hcon t.sizes s x hx) h

theorem runCore_writes_width (codec : Codec) (fs₀ : FS)
    (hcon : ∀ (c : Content) (w q : Nat) (out : Content),
      codec c w q = Except.ok out → out.width ≤ w ∧ out.width ≤ c.width) :
    ∀ r ∈ (runCore codec fs₀).writes,
      r.out.width ≤ r.spec.width ∧ r.out.width ≤ r.src.width := by
  rw [runCore_eq]
  apply processTier_writes_width codec hcon "review" config.review
  apply processTier_writes_width codec hcon "product" config.product
  apply processTier_writes_width codec hcon "large" config.large
  intro r hr
  exact absurd hr (List.not_mem_nil r)

/-- C8: for every successful conversion the run performs, the output image's
width never exceeds the size-spec's target width and never exceeds the source
image's width, given the codec contract (sharp with `withoutEnlargement` and
`fit: inside`) that a successful encode never upscales past either bound. -/
theorem C8_no_upscaling (codec : Codec) (fs₀ : FS)
    (hcon : ∀ (c : Content) (w q : Nat) (out : Content),
      codec c w q = Except.ok out → out.width ≤ w ∧ out.width ≤ c.width) :
    ∀ r ∈ (processImages codec fs₀).1.writes,
      r.out.width ≤ r.spec.width ∧ r.out.width ≤ r.src.width := by
  rw [processImages_fst, summarize_writes]
  exact runCore_writes_width codec fs₀ hcon

/-- C8 witness: the never-upscaling sample codec on a concrete filesystem. -/
theorem C8_witness :
    (processImages okCodec [(srcPath "004.png", ⟨2000, 100⟩)]).1.writes.Forall
      (fun r => r.out.width ≤ r.spec.width ∧ r.out.width ≤ r.src.width) :=
  List.forall_iff_forall_mem.mpr
    (C8_no_upscaling okCodec [(srcPath "004.png", ⟨2000, 100⟩)]
      (fun c w q out h => by
        cases Except.ok.inj h
        exact ⟨Nat.min_le_right c.width w, Nat.min_le_left c.width w⟩))

/-! ## The final size report: code-side fold versus specification-side sum -/

/-- The total the code computes at src/convert-images.js:168-173: list the
directory, keep `.webp` names, and sum their `statSync` sizes. -/
def codeWebpTotal (fs : FS) : Nat :=
  ((readdirSync fs inputDir).filter (fun f => strEndsWith f ".webp")).foldl
    (fun acc f => acc + statBytesD fs (pathJoin inputDir f)) 0

theorem summarize_log (st : RunState) :
    (summarize st).log = st.log ++
      [LogLine.summary st.totalConverted st.totalFailed,
       LogLine.sizeReport (codeWebpTotal st.fs) baselineBytes
         ((1 - (codeWebpTotal st.fs : ℚ) / (baselineBytes : ℚ)) * 100)] := rfl

theorem string_eq_of_data (a b : String) (h : a.data = b.data) : a = b := by
  cases a
  cases b
  exact congrArg String.mk h

theorem dropPreChars_inv (pre : List Char) :
    ∀ s t, dropPreChars pre s = some t → s = pre ++ t := by
  induction pre with
  | nil =>
    intro s t h
    simp only [dropPreChars] at h
    rw [Option.some.inj h]
    rfl
  | cons p ps ih =>
    intro s t h
    cases s with
    | nil => simp [dropPreChars] at h
    | cons c s' =>
      simp only [dropPreChars] at h
      by_cases hc : c = p
      · rw [if_pos hc] at h
        rw [List.cons_append, ← ih s' t h, hc]
      · rw [if_neg hc] at h
        cases h

theorem strDropPre_inv (pre s t : String) (h : strDropPre pre s = some t) :
    s = pre ++ t := by
  unfold strDropPre at h
  cases hd : dropPreChars pre.data s.data with
  | none => rw [hd] at h; cases h
  | some l =>
    rw [hd] at h
    have ht : t = ⟨l⟩ := (Option.some.inj h).symm
    apply string_eq_of_data
    show s.data = (pre ++ t).data
    have hap : (pre ++ t).data = pre.data ++ t.data := rfl
    rw [hap, ht]
    exact dropPreChars_inv pre.data s.data l hd

theorem foldl_add_eq_sum (g : String → Nat) (l : List String) (acc : Nat) :
    l.foldl (fun a f => a + g f) acc = acc + (l.map g).sum := by
  induction l generalizing acc with
  | nil => simp
  | cons x t ih =>
    rw [List.foldl_cons, ih, List.map_cons, List.sum_cons]
    omega

theorem webpTotal_aux (whole : FS) (hw : NodupKeys whole) :
    ∀ l : FS, (∀ e ∈ l, e ∈ whole) →
    (((l.filterMap (fun e => strDropPre (inputDir ++ "/") e.1)).filter
        (fun f => strEndsWith f ".webp")).map
      (fun f => statBytesD whole (pathJoin inputDir f))).sum
    = (l.filterMap webpEntryBytes).sum := by
  intro l
  induction l with
  | nil => intro _; rfl
  | cons e t ih =>
    intro hsub
    have hsub' : ∀ x ∈ t, x ∈ whole := fun x hx => hsub x (List.mem_cons_of_mem e hx)
    cases hd : strDropPre (inputDir ++ "/") e.1 with
    | none =>
      have he : webpEntryBytes e = none := by
        unfold webpEntryBytes
        rw [hd]
      simp only [List.filterMap_cons, hd, he]
      exact ih hsub'
    | some n =>
      by_cases hwebp : strEndsWith n ".webp" = true
      · have he : webpEntryBytes e = some e.2.bytes := by
          unfold webpEntryBytes
          simp [hd, hwebp]
        have hpath : pathJoin inputDir n = e.1 := by
          unfold pathJoin
          exact (strDropPre_inv (inputDir ++ "/") e.1 n hd).symm
        have hstat : statBytesD whole (pathJoin inputDir n) = e.2.bytes := by
          rw [hpath]
          unfold statBytesD
          rw [lookupFS_of_mem whole e.1 e.2 hw
            (by simpa using hsub e (List.mem_cons_self e t))]
        simp only [List.filterMap_cons, hd, he, List.filter_cons, hwebp, if_true,
          List.map_cons, List.sum_cons, hstat]
        rw [ih hsub']
      · have hw2 : strEndsWith n ".webp" = false := by
          cases hb : strEndsWith n ".webp" with
          | false => rfl
          | true => exact absurd hb hwebp
        have he : webpEntryBytes e = none := by
          unfold webpEntryBytes
          simp [hd, hw2]
        simp only [List.filterMap_cons, hd, he, List.filter_cons, hw2]
        simp only [Bool.false_eq_true, if_false]
        exact ih hsub'

/-- Under a well-formed directory, the total the code computes is exactly the
sum of the byte sizes of every `.webp` file in the input directory. -/
theorem codeWebpTotal_eq (fs : FS) (hn : NodupKeys fs) :
    codeWebpTotal fs = webpSizeSum fs := by
  unfold codeWebpTotal webpSizeSum readdirSync
  rw [foldl_add_eq_sum]
  simpa using webpTotal_aux fs hn fs (fun _ h => h)

theorem NodupKeys_applyWrites (ws : List WriteRec) (fs : FS)
    (hn : NodupKeys fs) : NodupKeys (applyWrites ws fs) := by
  induction ws generalizing fs with
  | nil => exact hn
  | cons r t ih =>
    show NodupKeys (applyWrites t (setFS fs r.outputPath r.out))
    exact ih _ (NodupKeys_setFS fs r.outputPath r.out hn)

theorem runCore_NodupKeys (codec : Codec) (fs₀ : FS) (hn : NodupKeys fs₀) :
    NodupKeys (runCore codec fs₀).fs := by
  rw [runCore_fs_eq]
  exact NodupKeys_applyWrites _ fs₀ hn

/-- C7: after all tiers are processed, the reported total output size is the
sum of the byte sizes of every `.webp` file present in the input directory at
that moment — whether or not this run produced them — and it is reported with
the fixed 153 MB baseline and the savings percentage
`(1 - total / baseline) * 100`. -/
theorem C7_size_report (codec : Codec) (fs₀ : FS) (hn : NodupKeys fs₀) :
    (∃ pre, (processImages codec fs₀).1.log = pre ++
      [LogLine.summary (processImages codec fs₀).1.totalConverted
         (processImages codec fs₀).1.totalFailed,
       LogLine.sizeReport (webpSizeSum (processImages codec fs₀).1.fs) baselineBytes
         ((1 - (webpSizeSum (processImages codec fs₀).1.fs : ℚ) /
            (baselineBytes : ℚ)) * 100)]) ∧
    baselineBytes = 153 * 1024 * 1024 := by
  constructor
  · refine ⟨(runCore codec fs₀).log, ?_⟩
    rw [processImages_fst, summarize_log, summarize_fs, summarize_totalConverted,
      summarize_totalFailed,
      codeWebpTotal_eq (runCore codec fs₀).fs (runCore_NodupKeys codec fs₀ hn)]
  · rfl

/-- C7 witness: a directory holding one pre-existing `.webp` file and no
sources; the report covers it even though this run wrote nothing. -/
theorem C7_witness :
    (∃ pre, (processImages errCodec [(pathJoin inputDir "old.webp", ⟨100, 7⟩)]).1.log = pre ++
      [LogLine.summary
         (processImages errCodec [(pathJoin inputDir "old.webp", ⟨100, 7⟩)]).1.totalConverted
         (processImages errCodec [(pathJoin inputDir "old.webp", ⟨100, 7⟩)]).1.totalFailed,
       LogLine.sizeReport
         (webpSizeSum (processImages errCodec [(pathJoin inputDir "old.webp", ⟨100, 7⟩)]).1.fs)
         baselineBytes
         ((1 - (webpSizeSum (processImages errCodec [(pathJoin inputDir "old.webp", ⟨100, 7⟩)]).1.fs : ℚ) /
            (baselineBytes : ℚ)) * 100)]) ∧
    baselineBytes = 153 * 1024 * 1024 :=
  C7_size_report errCodec [(pathJoin inputDir "old.webp", ⟨100, 7⟩)]
    (by simp [NodupKeys])

/-! ## Delta characterization of the writes appended by each phase -/

theorem foldSizes_writes_delta (codec : Codec) (f : String) :
    ∀ (sizes : List SizeSpec) (st : RunState),
    ∃ d, ((sizes.foldl (processSize codec f) st)).writes = st.writes ++ d ∧
      ∀ r ∈ d, r.inputPath = srcPath f := by
  intro sizes
  induction sizes with
  | nil => intro st; exact ⟨[], by simp, by simp⟩
  | cons s rest ih =>
    intro st
    rw [List.foldl_cons]
    cases hl : lookupFS st.fs (srcPath f) with
    | none =>
      rw [processSize_missing codec f st s hl]
      obtain ⟨d, h1, h2⟩ := ih
        { fs := st.fs
          totalConverted := st.totalConverted
          totalFailed := st.totalFailed + 1
          log := st.log ++
            [LogLine.convertError (srcPath f) "Input file is missing",
             LogLine.failLine (outputNameOf f s)]
          writes := st.writes }
      exact ⟨d, h1, h2⟩
    | some c =>
      cases hc : codec c s.width s.quality with
      | ok out =>
        rw [processSize_ok codec f st s c out hl hc]
        obtain ⟨d, h1, h2⟩ := ih
          { fs := setFS st.fs (outPath f s) out
            totalConverted := st.totalConverted + 1
            totalFailed := st.totalFailed
            log := st.log ++ [LogLine.okLine (outputNameOf f s) (formatMB out.bytes)]
            writes := st.writes ++ [⟨srcPath f, outPath f s, s, c, out⟩] }
        refine ⟨⟨srcPath f, outPath f s, s, c, out⟩ :: d, ?_, ?_⟩
        · rw [h1]
          simp
        · intro r hr
          rcases List.mem_cons.mp hr with heq | hr'
          · rw [heq]
          · exact h2 r hr'
      | error m =>
        rw [processSize_err codec f st s c m hl hc]
        obtain ⟨d, h1, h2⟩ := ih
          { fs := st.fs
            totalConverted := st.totalConverted
            totalFailed := st.totalFailed + 1
            log := st.log ++
              [LogLine.convertError (srcPath f) m,
               LogLine.failLine (outputNameOf f s)]
            writes := st.writes }
        exact ⟨d, h1, h2⟩

theorem processFile_writes_delta (codec : Codec) (sizes : List SizeSpec)
    (st : RunState) (f : String) :
    ∃ d, (processFile codec sizes st f).writes = st.writes ++ d ∧
      ∀ r ∈ d, r.inputPath = srcPath f := by
  cases hl : lookupFS st.fs (srcPath f) with
  | none =>
    rw [processFile_missing codec sizes st f hl]
    exact ⟨[], by simp, by simp⟩
  | some c =>
    rw [processFile_present codec sizes st f c hl]
    exact foldSizes_writes_delta codec f sizes _

theorem foldFiles_writes_delta (codec : Codec) (sizes : List SizeSpec) :
    ∀ (files : List String) (st : RunState),
    ∃ d, ((files.foldl (processFile codec sizes) st)).writes = st.writes ++ d ∧
      ∀ r ∈ d, ∃ g, g ∈ files ∧ r.inputPath = srcPath g := by
  intro files
  induction files with
  | nil => intro st; exact ⟨[], by simp, by simp⟩
  | cons f rest ih =>
    intro st
    rw [List.foldl_cons]
    obtain ⟨d1, h1, h2⟩ := processFile_writes_delta codec sizes st f
    obtain ⟨d2, h3, h4⟩ := ih (processFile codec sizes st f)
    refine ⟨d1 ++ d2, ?_, ?_⟩
    · rw [h3, h1, List.append_assoc]
    · intro r hr
      rcases List.mem_append.mp hr with hr' | hr'
      · exact ⟨f, List.mem_cons_self f rest, h2 r hr'⟩
      · obtain ⟨g, hg, hgp⟩ := h4 r hr'
        exact ⟨g, List.mem_cons_of_mem f hg, hgp⟩

theorem processTier_writes_delta (codec : Codec) (header : String)
    (t : TierCfg) (st : RunState) :
    ∃ d, (processTier codec header t st).writes = st.writes ++ d ∧
      ∀ r ∈ d, ∃ g, g ∈ t.files ∧ r.inputPath = srcPath g := by
  unfold processTier
  exact foldFiles_writes_delta codec t.sizes t.files _

/-- With a codec that always succeeds, processing one existing file appends
exactly one write per size-spec, in spec order, all from that file's source. -/
theorem processFile_writes_allok (codec : Codec) (f : String)
    (hok : ∀ (x : Content) (w q : Nat), ∃ o, codec x w q = Except.ok o) :
    ∀ (sizes : List SizeSpec) (st : RunState),
    (lookupFS st.fs (srcPath f)).isSome →
    (∀ s ∈ sizes, srcPath f ≠ outPath f s) →
    ∃ d, ((sizes.foldl (processSize codec f) st)).writes = st.writes ++ d ∧
      d.map (fun r => r.outputPath) = sizes.map (outPath f) ∧
      ∀ r ∈ d, r.inputPath = srcPath f := by
  intro sizes
  induction sizes with
  | nil => intro st _ _; exact ⟨[], by simp, by simp, by simp⟩
  | cons s rest ih =>
    intro st hsome hne
    obtain ⟨c, hc⟩ := Option.isSome_iff_exists.mp hsome
    obtain ⟨o, ho⟩ := hok c s.width s.quality
    rw [List.foldl_cons, processSize_ok codec f st s c o hc ho]
    have hsome' : (lookupFS (setFS st.fs (outPath f s) o) (srcPath f)).isSome := by
      rw [lookupFS_setFS,
        if_neg (fun h => hne s (List.mem_cons_self s rest) h.symm), hc]
      rfl
    obtain ⟨d, h1, h2, h3⟩ := ih
      { fs := setFS st.fs (outPath f s) o
        totalConverted := st.totalConverted + 1
        totalFailed := st.totalFailed
        log := st.log ++ [LogLine.okLine (outputNameOf f s) (formatMB o.bytes)]
        writes := st.writes ++ [⟨srcPath f, outPath f s, s, c, o⟩] }
      hsome' (fun x hx => hne x (List.mem_cons_of_mem s hx))
    refine ⟨⟨srcPath f, outPath f s, s, c, o⟩ :: d, ?_, ?_, ?_⟩
    · rw [h1]
      simp
    · rw [List.map_cons, List.map_cons, h2]
    · intro r hr
      rcases List.mem_cons.mp hr with heq | hr'
      · rw [heq]
      · exact h3 r hr'

/-- A path that one of the recorded writes targets exists afterwards. -/
theorem lookupFS_isSome_of_written (ws : List WriteRec) (fs : FS) (p : String)
    (hp : p ∈ ws.map (fun r => r.outputPath)) :
    (lookupFS (applyWrites ws fs) p).isSome := by
  induction ws generalizing fs with
  | nil => simp at hp
  | cons r t ih =>
    rw [List.map_cons] at hp
    show (lookupFS (applyWrites t (setFS fs r.outputPath r.out)) p).isSome
    rcases List.mem_cons.mp hp with heq | hp'
    · apply lookupFS_isSome_applyWrites
      rw [lookupFS_setFS, heq, if_pos rfl]
      rfl
    · exact ih _ hp'

/-- The four output paths the claim predicts for `004.png` under the "large"
tier, in spec-list order. -/
def expected004 : List String :=
  [pathJoin inputDir "004-small.webp", pathJoin inputDir "004-medium.webp",
   pathJoin inputDir "004-large.webp", pathJoin inputDir "004-thumbnail.webp"]

/-- The filename with its known 4-character `.png` extension stripped. -/
def stripExt (f : String) : String := ⟨f.data.take (f.data.length - 4)⟩

/-- C5: for every configured filename and size-spec, the computed output name
is the input filename with the known `.png` extension stripped plus
`-{suffix}.webp`; and in the concrete scenario where `004.png` exists and the
codec always succeeds, the run writes exactly the 4 outputs `004-small.webp`,
`004-medium.webp`, `004-large.webp`, `004-thumbnail.webp` for it, in the
input directory, all present afterwards. -/
theorem C5_output_naming :
    (∀ t ∈ [config.large, config.product, config.review],
      ∀ f ∈ t.files, ∀ s ∈ t.sizes,
        outputNameOf f s = stripExt f ++ "-" ++ s.suffix ++ ".webp") ∧
    (∀ (codec : Codec) (fs₀ : FS) (c : Content),
      lookupFS fs₀ (srcPath "004.png") = some c →
      (∀ (x : Content) (w q : Nat), ∃ o, codec x w q = Except.ok o) →
      (((processImages codec fs₀).1.writes.filter
          (fun r => decide (r.inputPath = srcPath "004.png"))).map
        (fun r => r.outputPath)) = expected004 ∧
      ∀ p ∈ expected004, (lookupFS (processImages codec fs₀).1.fs p).isSome) := by
  constructor
  · decide
  · intro codec fs₀ c h004 hok
    set stH : RunState :=
      { initState fs₀ with log := (initState fs₀).log ++ [LogLine.tierHeader "large"] }
      with hstH
    have htier : stage1 codec fs₀ =
        List.foldl (processFile codec config.large.sizes) stH config.large.files := rfl
    set st004 := processFile codec config.large.sizes stH "004.png" with hst004
    have hcons : List.foldl (processFile codec config.large.sizes) stH config.large.files =
        List.foldl (processFile codec config.large.sizes) st004
          ["019.png", "023.png", "032.png", "037.png", "069.png", "075.png"] := rfl
    have h004H : lookupFS stH.fs (srcPath "004.png") = some c := h004
    have hpf : processFile codec config.large.sizes stH "004.png" =
        List.foldl (processSize codec "004.png")
          { stH with log := stH.log ++ [LogLine.fileInfo "004.png" (formatMB c.bytes)] }
          config.large.sizes :=
      processFile_present codec config.large.sizes stH "004.png" c h004H
    obtain ⟨d0, hw0, hmap0, hinp0⟩ :=
      processFile_writes_allok codec "004.png" hok config.large.sizes
        { stH with log := stH.log ++ [LogLine.fileInfo "004.png" (formatMB c.bytes)] }
        (by show (lookupFS stH.fs (srcPath "004.png")).isSome; rw [h004H]; rfl)
        (by decide)
    have hst004w : st004.writes = d0 := by
      rw [hst004, hpf, hw0]
      show (initState fs₀).writes ++ d0 = d0
      rfl
    obtain ⟨d1, hw1, hg1⟩ := foldFiles_writes_delta codec config.large.sizes
      ["019.png", "023.png", "032.png", "037.png", "069.png", "075.png"] st004
    obtain ⟨d2, hw2, hg2⟩ :=
      processTier_writes_delta codec "product" config.product (stage1 codec fs₀)
    obtain ⟨d3, hw3, hg3⟩ :=
      processTier_writes_delta codec "review" config.review (stage2 codec fs₀)
    have hs1 : (stage1 codec fs₀).writes = st004.writes ++ d1 := by
      rw [htier, hcons]
      exact hw1
    have hs2 : (stage2 codec fs₀).writes = (stage1 codec fs₀).writes ++ d2 := hw2
    have hs3 : (runCore codec fs₀).writes = (stage2 codec fs₀).writes ++ d3 := hw3
    have hall : (runCore codec fs₀).writes = d0 ++ (d1 ++ (d2 ++ d3)) := by
      rw [hs3, hs2, hs1, hst004w]
      simp [List.append_assoc]
    have hne1 : ∀ g ∈ ["019.png", "023.png", "032.png", "037.png", "069.png", "075.png"],
        srcPath g ≠ srcPath "004.png" := by decide
    have hne2 : ∀ g ∈ config.product.files, srcPath g ≠ srcPath "004.png" := by decide
    have hne3 : ∀ g ∈ config.review.files, srcPath g ≠ srcPath "004.png" := by decide
    have hfilter : ((runCore codec fs₀).writes.filter
        (fun r => decide (r.inputPath = srcPath "004.png"))) = d0 := by
      rw [hall, List.filter_append, List.filter_append, List.filter_append]
      have f0 : d0.filter (fun r => decide (r.inputPath = srcPath "004.png")) = d0 :=
        List.filter_eq_self.mpr (fun r hr => by simp [hinp0 r hr])
      have f1 : d1.filter (fun r => decide (r.inputPath = srcPath "004.png")) = [] := by
        rw [List.filter_eq_nil_iff]
        intro r hr
        obtain ⟨g, hg, hgp⟩ := hg1 r hr
        simp [hgp, hne1 g hg]
      have f2 : d2.filter (fun r => decide (r.inputPath = srcPath "004.png")) = [] := by
        rw [List.filter_eq_nil_iff]
        intro r hr
        obtain ⟨g, hg, hgp⟩ := hg2 r hr
        simp [hgp, hne2 g hg]
      have f3 : d3.filter (fun r => decide (r.inputPath = srcPath "004.png")) = [] := by
        rw [List.filter_eq_nil_iff]
        intro r hr
        obtain ⟨g, hg, hgp⟩ := hg3 r hr
        simp [hgp, hne3 g hg]
      rw [f0, f1, f2, f3]
      simp
    have hexp : config.large.sizes.map (outPath "004.png") = expected004 := by decide
    constructor
    · rw [processImages_fst, summarize_writes, hfilter, hmap0, hexp]
    · intro p hp
      have hp0 : p ∈ d0.map (fun r => r.outputPath) := by
        rw [hmap0, hexp]
        exact hp
      obtain ⟨⟨de, hwe, hfe⟩, _⟩ := evol_processFile codec config.large.sizes stH "004.png"
      have hde : de = d0 := by
        have h1 : st004.writes = stH.writes ++ de := hwe
        rw [hst004w] at h1
        have h2 : stH.writes ++ de = de := rfl
        rw [h2] at h1
        exact h1.symm
      have hfs004 : st004.fs = applyWrites d0 stH.fs := by
        rw [hst004]
        rw [hde] at hfe
        exact hfe
      have hsome004 : (lookupFS st004.fs p).isSome := by
        rw [hfs004]
        exact lookupFS_isSome_of_written d0 stH.fs p hp0
      have e1 : Evol st004 (stage1 codec fs₀) := by
        rw [htier.trans hcons]
        exact evol_foldl _ _ (fun s x _ => evol_processFile codec config.large.sizes s x) st004
      have e2 : Evol st004 (stage2 codec fs₀) :=
        evol_trans e1 (evol_processTier codec "product" config.product (stage1 codec fs₀))
      have e3 : Evol st004 (runCore codec fs₀) :=
        evol_trans e2 (evol_processTier codec "review" config.review (stage2 codec fs₀))
      obtain ⟨⟨dr, hwr, hfr⟩, _⟩ := e3
      rw [processImages_fst, summarize_fs, hfr]
      exact lookupFS_isSome_applyWrites dr st004.fs p hsome004

/-- C5 witness: `004.png` present with a 2000-pixel-wide source and an
always-succeeding codec: exactly the four expected outputs are written. -/
theorem C5_witness :
    (((processImages okCodec [(srcPath "004.png", ⟨2000, 100⟩)]).1.writes.filter
        (fun r => decide (r.inputPath = srcPath "004.png"))).map
      (fun r => r.outputPath)) = expected004 ∧
    ∀ p ∈ expected004,
      (lookupFS (processImages okCodec [(srcPath "004.png", ⟨2000, 100⟩)]).1.fs p).isSome :=
  C5_output_naming.2 okCodec [(srcPath "004.png", ⟨2000, 100⟩)] ⟨2000, 100⟩
    (by simp [lookupFS]) (fun x w q => ⟨⟨min x.width w, x.bytes / 2 + 1⟩, rfl⟩)

/-! ## The write targets of one run are pairwise distinct -/

theorem foldSizes_writes_sublist (codec : Codec) (f : String) :
    ∀ (sizes : List SizeSpec) (st : RunState),
    ∃ d, ((sizes.foldl (processSize codec f) st)).writes = st.writes ++ d ∧
      (d.map (fun r => r.outputPath)).Sublist (sizes.map (outPath f)) := by
  intro sizes
  induction sizes with
  | nil => intro st; exact ⟨[], by simp, by simp⟩
  | cons s rest ih =>
    intro st
    rw [List.foldl_cons]
    cases hl : lookupFS st.fs (srcPath f) with
    | none =>
      rw [processSize_missing codec f st s hl]
      obtain ⟨d, h1, h2⟩ := ih
        { fs := st.fs
          totalConverted := st.totalConverted
          totalFailed := st.totalFailed + 1
          log := st.log ++
            [LogLine.convertError (srcPath f) "Input file is missing",
             LogLine.failLine (outputNameOf f s)]
          writes := st.writes }
      exact ⟨d, h1, List.Sublist.cons (outPath f s) h2⟩
    | some c =>
      cases hc : codec c s.width s.quality with
      | ok out =>
        rw [processSize_ok codec f st s c out hl hc]
        obtain ⟨d, h1, h2⟩ := ih
          { fs := setFS st.fs (outPath f s) out
            totalConverted := st.totalConverted + 1
            totalFailed := st.totalFailed
            log := st.log ++ [LogLine.okLine (outputNameOf f s) (formatMB out.bytes)]
            writes := st.writes ++ [⟨srcPath f, outPath f s, s, c, out⟩] }
        refine ⟨⟨srcPath f, outPath f s, s, c, out⟩ :: d, ?_, ?_⟩
        · rw [h1]
          simp
        · rw [List.map_cons, List.map_cons]
          exact List.Sublist.cons₂ (outPath f s) h2
      | error m =>
        rw [processSize_err codec f st s c m hl hc]
        obtain ⟨d, h1, h2⟩ := ih
          { fs := st.fs
            totalConverted := st.totalConverted
            totalFailed := st.totalFailed + 1
            log := st.log ++
              [LogLine.convertError (srcPath f) m,
               LogLine.failLine (outputNameOf f s)]
            writes := st.writes }
        exact ⟨d, h1, List.Sublist.cons (outPath f s) h2⟩

theorem processFile_writes_sublist (codec : Codec) (sizes : List SizeSpec)
    (st : RunState) (f : String) :
    ∃ d, (processFile codec sizes st f).writes = st.writes ++ d ∧
      (d.map (fun r => r.outputPath)).Sublist (sizes.map (outPath f)) := by
  cases hl : lookupFS st.fs (srcPath f) with
  | none =>
    rw [processFile_missing codec sizes st f hl]
    exact ⟨[], by simp, by simp⟩
  | some c =>
    rw [processFile_present codec sizes st f c hl]
    exact foldSizes_writes_sublist codec f sizes _

theorem foldFiles_writes_sublist (codec : Codec) (sizes : List SizeSpec) :
    ∀ (files : List String) (st : RunState),
    ∃ d, ((files.foldl (processFile codec sizes) st)).writes = st.writes ++ d ∧
      (d.map (fun r => r.outputPath)).Sublist
        ((files.map (fun f => sizes.map (outPath f))).flatten) := by
  intro files
  induction files with
  | nil => intro st; exact ⟨[], by simp, by simp⟩
  | cons f rest ih =>
    intro st
    rw [List.foldl_cons]
    obtain ⟨d1, h1, h2⟩ := processFile_writes_sublist codec sizes st f
    obtain ⟨d2, h3, h4⟩ := ih (processFile codec sizes st f)
    refine ⟨d1 ++ d2, ?_, ?_⟩
    · rw [h3, h1, List.append_assoc]
    · rw [List.map_cons, List.flatten_cons, List.map_append]
      exact List.Sublist.append h2 h4

theorem processTier_writes_sublist (codec : Codec) (header : String)
    (t : TierCfg) (st : RunState) :
    ∃ d, (processTier codec header t st).writes = st.writes ++ d ∧
      (d.map (fun r => r.outputPath)).Sublist (tierOutPaths t) := by
  unfold processTier tierOutPaths
  exact foldFiles_writes_sublist codec t.sizes t.files _

theorem runCore_writes_sublist (codec : Codec) (fs₀ : FS) :
    ((runCore codec fs₀).writes.map (fun r => r.outputPath)).Sublist allOutputPaths := by
  obtain ⟨d3, h3, s3⟩ :=
    processTier_writes_sublist codec "review" config.review (stage2 codec fs₀)
  obtain ⟨d2, h2, s2⟩ :=
    processTier_writes_sublist codec "product" config.product (stage1 codec fs₀)
  obtain ⟨d1, h1, s1⟩ :=
    processTier_writes_sublist codec "large" config.large (initState fs₀)
  have hw : (runCore codec fs₀).writes = d1 ++ d2 ++ d3 := by
    have e3 : (runCore codec fs₀).writes = (stage2 codec fs₀).writes ++ d3 := h3
    have e2 : (stage2 codec fs₀).writes = (stage1 codec fs₀).writes ++ d2 := h2
    have e1 : (stage1 codec fs₀).writes = d1 := by
      have : (stage1 codec fs₀).writes = (initState fs₀).writes ++ d1 := h1
      rw [this]
      rfl
    rw [e3, e2, e1]
  rw [hw]
  unfold allOutputPaths
  simp only [List.map_append]
  exact List.Sublist.append (List.Sublist.append s1 s2) s3

theorem runCore_writes_nodup (codec : Codec) (fs₀ : FS) :
    ((runCore codec fs₀).writes.map (fun r => r.outputPath)).Nodup :=
  allOutputPaths_nodup.sublist (runCore_writes_sublist codec fs₀)

/-! ## Simulation: the run is driven only by the source files -/

/-- Two run states that agree on everything except (possibly) the parts of
the filesystem outside the configured source files. -/
def SimR (a b : RunState) : Prop :=
  a.totalConverted = b.totalConverted ∧ a.totalFailed = b.totalFailed ∧
    a.log = b.log ∧ a.writes = b.writes ∧
    ∀ g ∈ allFiles, lookupFS a.fs (srcPath g) = lookupFS b.fs (srcPath g)

theorem sim_processSize (codec : Codec) (f : String) (hf : f ∈ allFiles)
    (s : SizeSpec) (hd : ∀ g ∈ allFiles, srcPath g ≠ outPath f s)
    {a b : RunState} (h : SimR a b) :
    SimR (processSize codec f a s) (processSize codec f b s) := by
  obtain ⟨hc, hfl, hl, hw, hfs⟩ := h
  have hsrc := hfs f hf
  cases hla : lookupFS a.fs (srcPath f) with
  | none =>
    have hlb : lookupFS b.fs (srcPath f) = none := by rw [← hsrc, hla]
    rw [processSize_missing codec f a s hla, processSize_missing codec f b s hlb]
    exact ⟨hc, by rw [hfl], by rw [hl], hw, hfs⟩
  | some c =>
    have hlb : lookupFS b.fs (srcPath f) = some c := by rw [← hsrc, hla]
    cases hcc : codec c s.width s.quality with
    | ok out =>
      rw [processSize_ok codec f a s c out hla hcc,
        processSize_ok codec f b s c out hlb hcc]
      refine ⟨by rw [hc], hfl, by rw [hl], by rw [hw], ?_⟩
      intro g hg
      show lookupFS (setFS a.fs (outPath f s) out) (srcPath g) =
        lookupFS (setFS b.fs (outPath f s) out) (srcPath g)
      rw [lookupFS_setFS, lookupFS_setFS,
        if_neg (fun hx => hd g hg hx.symm), if_neg (fun hx => hd g hg hx.symm)]
      exact hfs g hg
    | error m =>
      rw [processSize_err codec f a s c m hla hcc,
        processSize_err codec f b s c m hlb hcc]
      exact ⟨hc, by rw [hfl], by rw [hl], hw, hfs⟩

theorem sim_foldSizes (codec : Codec) (f : String) (hf : f ∈ allFiles) :
    ∀ (sizes : List SizeSpec),
    (∀ s ∈ sizes, ∀ g ∈ allFiles, srcPath g ≠ outPath f s) →
    ∀ {a b : RunState}, SimR a b →
    SimR (sizes.foldl (processSize codec f) a) (sizes.foldl (processSize codec f) b) := by
  intro sizes
  induction sizes with
  | nil => intro _ a b h; exact h
  | cons s rest ih =>
    intro hd a b h
    rw [List.foldl_cons, List.foldl_cons]
    exact ih (fun x hx => hd x (List.mem_cons_of_mem s hx))
      (sim_processSize codec f hf s (hd s (List.mem_cons_self s rest)) h)

theorem sim_processFile (codec : Codec) (sizes : List SizeSpec) (f : String)
    (hf : f ∈ allFiles)
    (hd : ∀ s ∈ sizes, ∀ g ∈ allFiles, srcPath g ≠ outPath f s)
    {a b : RunState} (h : SimR a b) :
    SimR (processFile codec sizes a f) (processFile codec sizes b f) := by
  obtain ⟨hc, hfl, hl, hw, hfs⟩ := h
  have hsrc := hfs f hf
  cases hla : lookupFS a.fs (srcPath f) with
  | none =>
    have hlb : lookupFS b.fs (srcPath f) = none := by rw [← hsrc, hla]
    rw [processFile_missing codec sizes a f hla, processFile_missing codec sizes b f hlb]
    exact ⟨hc, hfl, by rw [hl], hw, hfs⟩
  | some c =>
    have hlb : lookupFS b.fs (srcPath f) = some c := by rw [← hsrc, hla]
    rw [processFile_present codec sizes a f c hla,
      processFile_present codec sizes b f c hlb]
    exact sim_foldSizes codec f hf sizes hd
      ⟨hc, hfl, by rw [hl], hw, hfs⟩

theorem sim_foldFiles (codec : Codec) (sizes : List SizeSpec) :
    ∀ (files : List String),
    (∀ f ∈ files, f ∈ allFiles) →
    (∀ f ∈ files, ∀ s ∈ sizes, ∀ g ∈ allFiles, srcPath g ≠ outPath f s) →
    ∀ {a b : RunState}, SimR a b →
    SimR (files.foldl (processFile codec sizes) a)
      (files.foldl (processFile codec sizes) b) := by
  intro files
  induction files with
  | nil => intro _ _ a b h; exact h
  | cons f rest ih =>
    intro hfall hd a b h
    rw [List.foldl_cons, List.foldl_cons]
    exact ih (fun g hg => hfall g (List.mem_cons_of_mem f hg))
      (fun g hg => hd g (List.mem_cons_of_mem f hg))
      (sim_processFile codec sizes f (hfall f (List.mem_cons_self f rest))
        (hd f (List.mem_cons_self f rest)) h)

theorem sim_processTier (codec : Codec) (header : String) (t : TierCfg)
    (hfall : ∀ f ∈ t.files, f ∈ allFiles)
    (hd : ∀ f ∈ t.files, ∀ s ∈ t.sizes, ∀ g ∈ allFiles, srcPath g ≠ outPath f s)
    {a b : RunState} (h : SimR a b) :
    SimR (processTier codec header t a) (processTier codec header t b) := by
  unfold processTier
  obtain ⟨hc, hfl, hl, hw, hfs⟩ := h
  exact sim_foldFiles codec t.sizes t.files hfall hd
    ⟨hc, hfl, by rw [hl], hw, hfs⟩

theorem sim_runCore (codec : Codec) (fs₀ fs₀' : FS)
    (h : ∀ g ∈ allFiles, lookupFS fs₀ (srcPath g) = lookupFS fs₀' (srcPath g)) :
    SimR (runCore codec fs₀) (runCore codec fs₀') := by
  have hdL : ∀ f ∈ config.large.files, ∀ s ∈ config.large.sizes,
      ∀ g ∈ allFiles, srcPath g ≠ outPath f s :=
    fun f hf s hs g hg hc =>
      srcPath_not_out g hg
        (hc ▸ tierOutPaths_sub_large (outPath_mem_tierOutPaths config.large hf hs))
  have hdP : ∀ f ∈ config.product.files, ∀ s ∈ config.product.sizes,
      ∀ g ∈ allFiles, srcPath g ≠ outPath f s :=
    fun f hf s hs g hg hc =>
      srcPath_not_out g hg
        (hc ▸ tierOutPaths_sub_product (outPath_mem_tierOutPaths config.product hf hs))
  have hdR : ∀ f ∈ config.review.files, ∀ s ∈ config.review.sizes,
      ∀ g ∈ allFiles, srcPath g ≠ outPath f s :=
    fun f hf s hs g hg hc =>
      srcPath_not_out g hg
        (hc ▸ tierOutPaths_sub_review (outPath_mem_tierOutPaths config.review hf hs))
  have hinit : SimR (initState fs₀) (initState fs₀') := ⟨rfl, rfl, rfl, rfl, h⟩
  exact sim_processTier codec "review" config.review
    (fun f hf => mem_allFiles_review hf) hdR
    (sim_processTier codec "product" config.product
      (fun f hf => mem_allFiles_product hf) hdP
      (sim_processTier codec "large" config.large
        (fun f hf => mem_allFiles_large hf) hdL hinit))

theorem runState_eq (a b : RunState) (h1 : a.fs = b.fs)
    (h2 : a.totalConverted = b.totalConverted) (h3 : a.totalFailed = b.totalFailed)
    (h4 : a.log = b.log) (h5 : a.writes = b.writes) : a = b := by
  cases a
  cases b
  simp_all

/-- C9: running the batch a second time over the filesystem the first run
left behind — identical sources, deterministic codec — reproduces the first
run exactly: same output paths, same written contents (so the second run
overwrites the first run's files with the same data, leaving the filesystem
unchanged), same final tally, same log. -/
theorem C9_idempotent (codec : Codec) (fs₀ : FS) :
    processImages codec ((processImages codec fs₀).1.fs) = processImages codec fs₀ := by
  have hsrceq : ∀ g ∈ allFiles,
      lookupFS (runCore codec fs₀).fs (srcPath g) = lookupFS fs₀ (srcPath g) :=
    fun g hg => runCore_src_stable codec fs₀ g hg
  obtain ⟨hc, hfl, hl, hw, hfs⟩ :=
    sim_runCore codec (runCore codec fs₀).fs fs₀ hsrceq
  have hfseq : (runCore codec (runCore codec fs₀).fs).fs = (runCore codec fs₀).fs := by
    rw [runCore_fs_eq codec (runCore codec fs₀).fs, hw,
      runCore_fs_eq codec fs₀,
      applyWrites_idem _ fs₀ (runCore_writes_nodup codec fs₀)]
  have hstate : runCore codec (runCore codec fs₀).fs = runCore codec fs₀ :=
    runState_eq _ _ hfseq hc hfl hl hw
  show processImages codec ((processImages codec fs₀).1.fs) = processImages codec fs₀
  rw [processImages_fst, summarize_fs]
  unfold processImages
  rw [hstate]
